import Mathlib

/-!
# Verification of the lorem-video request codec, transcode orchestrator and HLS engine

Shallow embedding of the Go sources of the lorem-video service:

* `internal/parser/filename.go` — `ParseFilename` / `GenerateFilename`
* `internal/config/types.go`    — the codec/resolution catalog
* `internal/service/video.go`   — `VideoService.Transcode` (cache check,
  encoder argument list, error delivery)
* `internal/rest/serveHLS.go`   — `ServeHLS` (media playlist with
  discontinuity markers, virtual segment resolution)

Go strings are modeled as lists of Unicode code points (`List Nat`).  All
text the program manipulates is ASCII, where Go's byte-oriented operations
and the code-point view coincide.  Go `int`/`int64` are modeled as `Int`
(the service targets 64-bit hosts, so `int` is 64 bits wide; arithmetic in
the embedded fragments never overflows for representable inputs).  Go's
truncated integer remainder `%` is `Int.tmod`.
-/

namespace LoremVideo

/-- Go string: list of code points. -/
abbrev GoStr := List Nat

/-- Code-point list of a Lean string literal (ASCII in all uses). -/
def txt (s : String) : GoStr := s.data.map Char.toNat

/-- ASCII decimal digit test: model of the regex class `\d` and of the
digit test inside `strconv.Atoi`. -/
def isDigitCp (c : Nat) : Bool := 48 ≤ c && c ≤ 57

/-- Decimal digit as a code point (48 = '0' … 57 = '9'); model of the
digit characters produced by Go's integer formatting. -/
def digitCp (d : Nat) : Nat := 48 + d

/-- Core of decimal printing, mirroring the structure of Go's
`strconv.FormatInt` (and of Lean core's `Nat.toDigitsCore`): peel the last
digit, recurse on `n / 10`, with fuel for structural termination. -/
def natDigitsCore : Nat → Nat → GoStr → GoStr
  | 0, _, acc => acc
  | fuel + 1, n, acc =>
    if n / 10 = 0 then digitCp (n % 10) :: acc
    else natDigitsCore fuel (n / 10) (digitCp (n % 10) :: acc)

/-- Decimal digits of a natural number, most significant first
(`natDigits 0 = "0"`); model of Go's formatting of a non-negative int. -/
def natDigits (n : Nat) : GoStr := natDigitsCore (n + 1) n []

/-- Model of Go's `fmt.Sprintf("%d", i)` for an `int`/`int64` value. -/
def intStr (i : Int) : GoStr :=
  if i < 0 then 45 :: natDigits i.natAbs else natDigits i.toNat

/-- Left-pad with '0' (code point 48) to width `w`. -/
def pad0 (w : Nat) (s : GoStr) : GoStr := List.replicate (w - s.length) 48 ++ s

/-- Model of Go's `fmt.Sprintf("%03d", i)`: total width 3, zero padded;
for a negative value the sign counts towards the width and the zeros come
after the sign. -/
def fmt03d (i : Int) : GoStr :=
  if i < 0 then 45 :: pad0 2 (natDigits i.natAbs) else pad0 3 (natDigits i.toNat)

/-- Digit-string parser: `some` of the decimal value when the string is
non-empty and all digits, else `none`.  Together with `goAtoi` this models
`strconv.Atoi` (the `int64` range check is unreachable in the embedded
fragments: every parsed string either is bounded by the request grammar or
was printed from an `int`). -/
def parseDigits (s : GoStr) : Option Nat :=
  if s ≠ [] ∧ s.all isDigitCp then
    some (s.foldl (fun a c => a * 10 + (c - 48)) 0)
  else none

/-- Model of Go's `strconv.Atoi`: optional sign (43 = '+', 45 = '-')
followed by at least one digit; `none` on the empty string or any other
character. -/
def goAtoi : GoStr → Option Int
  | [] => none
  | c :: rest =>
    if c = 43 then (parseDigits rest).map Int.ofNat
    else if c = 45 then (parseDigits rest).map (fun n => -(Int.ofNat n))
    else (parseDigits (c :: rest)).map Int.ofNat

/-- Model of Go's `strconv.ParseInt(s, 10, 64)`: as `goAtoi` plus the
signed 64-bit range check. -/
def goParseInt64 (s : GoStr) : Option Int :=
  match goAtoi s with
  | none => none
  | some v => if -(2 ^ 63) ≤ v ∧ v < 2 ^ 63 then some v else none

/-- Model of Go's `strings.Split(s, sep)` for a one-character separator:
`splitOn sep "" = [""]`, adjacent separators produce empty fields. -/
def splitOn (sep : Nat) : GoStr → List GoStr
  | [] => [[]]
  | c :: rest =>
    match splitOn sep rest with
    | [] => [[c]]
    | g :: gs => if c = sep then [] :: g :: gs else (c :: g) :: gs

/-- Model of Go's `strings.Join(parts, sep)` for a one-character
separator. -/
def joinWith (sep : Nat) : List GoStr → GoStr
  | [] => []
  | [p] => p
  | p :: q :: rest => p ++ sep :: joinWith sep (q :: rest)

/-- Model of Go's `strings.HasSuffix`. -/
def hasSuffix (s suf : GoStr) : Bool := suf.isSuffixOf s

/-- Model of Go's `strings.HasPrefix`. -/
def hasPrefix (s pre : GoStr) : Bool := pre.isPrefixOf s

/-- Model of Go's `strings.TrimSuffix`. -/
def trimSuffix (s suf : GoStr) : GoStr :=
  if hasSuffix s suf then s.take (s.length - suf.length) else s

/-- Model of Go's `strings.TrimPrefix`. -/
def trimPrefix (s pre : GoStr) : GoStr :=
  if hasPrefix s pre then s.drop pre.length else s

/-- ASCII case folding on one code point (65 = 'A' … 90 = 'Z').  Model of
Go's `strings.ToLower` restricted to ASCII; the Unicode foldings Go also
performs never map a code point into the ASCII container whitelist, so the
restriction does not change any comparison the program makes. -/
def toLowerCp (c : Nat) : Nat := if 65 ≤ c ∧ c ≤ 90 then c + 32 else c

/-- Model of Go's `strings.ToLower`. -/
def goToLower (s : GoStr) : GoStr := s.map toLowerCp

/-- Helper of `goExt`: scan the reversed path; stop with `""` at a path
separator (47 = '/'), return from the dot (46 = '.') once found. -/
def extRevScan : GoStr → GoStr → GoStr
  | [], _ => []
  | c :: rest, acc =>
    if c = 47 then []
    else if c = 46 then 46 :: acc
    else extRevScan rest (c :: acc)

/-- Model of Go's `filepath.Ext`: the suffix beginning at the final dot of
the final path element, `""` if there is none. -/
def goExt (s : GoStr) : GoStr := extRevScan s.reverse []

/-- Model of Go's `filepath.Join(a, b)` in the forms the service uses
(clean relative/absolute components, so joining is separator insertion). -/
def pathJoin (a b : GoStr) : GoStr := a ++ 47 :: b

/-!
## Catalog (`internal/config/types.go`)
-/

/-- `config.VideoSpec`.  Numeric fields are Go `int`s; string fields are
Go strings.  The zero value (all `0` / `""`) means "unspecified". -/
structure VideoSpec where
  name : GoStr
  width : Int
  height : Int
  duration : Int
  codec : GoStr
  fps : Int
  bitrate : GoStr
  audioCodec : GoStr
  audioBitrate : Int
  container : GoStr
deriving DecidableEq

deriving instance DecidableEq for Except

/-- The Go zero value `config.VideoSpec{}`. -/
def emptySpec : VideoSpec :=
  ⟨[], 0, 0, 0, [], 0, [], [], 0, []⟩

/-- `config.DefaultVideoSpec`. -/
def DefaultVideoSpec : VideoSpec :=
  ⟨txt "bunny", 1280, 720, 20, txt "h264", 30, txt "25crf", txt "aac", 128, txt "mp4"⟩

/-- `config.VideoCodecNameMap` as an association list in source order.
Go iterates map keys in unspecified order; only lookup and key membership
are ever used, which the association list models exactly. -/
def VideoCodecNameMap : List (GoStr × GoStr) :=
  [(txt "av1", txt "libaom-av1"), (txt "h264", txt "libx264"),
   (txt "h265", txt "libx265"), (txt "vp9", txt "libvpx-vp9"),
   (txt "novideo", txt "none")]

/-- `config.AudioCodecNameMap` as an association list in source order. -/
def AudioCodecNameMap : List (GoStr × GoStr) :=
  [(txt "aac", txt "aac"), (txt "opus", txt "libopus"),
   (txt "vorbis", txt "vorbis"), (txt "noaudio", txt "none")]

/-- `config.ValidVideoCodecs = slices.Collect(maps.Keys(VideoCodecNameMap))`. -/
def ValidVideoCodecs : List GoStr := VideoCodecNameMap.map Prod.fst

/-- `config.ValidAudioCodecs = slices.Collect(maps.Keys(AudioCodecNameMap))`. -/
def ValidAudioCodecs : List GoStr := AudioCodecNameMap.map Prod.fst

/-- `config.ValidContainers`. -/
def ValidContainers : List GoStr := [txt "mp4", txt "webm"]

/-- `config.Resolutions` (name, width, height). -/
def Resolutions : List (GoStr × Int × Int) :=
  [(txt "240p", 426, 240), (txt "360p", 640, 360), (txt "480p", 854, 480),
   (txt "720p", 1280, 720), (txt "1080p", 1920, 1080),
   (txt "1440p", 2560, 1440), (txt "4k", 3840, 2160)]

/-- `config.VideoCodecArgs`: per-encoder tuning argument lists. -/
def VideoCodecArgs : List (GoStr × List GoStr) :=
  [(txt "libaom-av1", [txt "-cpu-used", txt "8", txt "-row-mt", txt "1",
      txt "-tiles", txt "2x2"]),
   (txt "libx264", [txt "-preset", txt "fast", txt "-threads", txt "0"]),
   (txt "libx265", [txt "-preset", txt "fast", txt "-x265-params", txt "pools=+"]),
   (txt "libvpx-vp9", [txt "-speed", txt "4", txt "-tile-columns", txt "2",
      txt "-tile-rows", txt "1", txt "-threads", txt "8"])]

/-- Go map read `m[k]` for a `map[string]string`: the zero value `""`
when the key is absent. -/
def mapGet (m : List (GoStr × GoStr)) (k : GoStr) : GoStr :=
  (m.lookup k).getD []

/-!
## Spec codec (`internal/parser/filename.go`)
-/

/-- Model of `resolutionRegex = ^(\d+)x(\d+)$` (120 = 'x'): the two digit
groups on a match.  The regex is anchored and `\d+` cannot contain `x`,
so a match is exactly a split `digits ++ "x" ++ digits` with both groups
non-empty. -/
def matchResolution (s : GoStr) : Option (GoStr × GoStr) :=
  let d1 := s.takeWhile isDigitCp
  let rest := s.dropWhile isDigitCp
  if d1 ≠ [] ∧ rest.head? = some 120 ∧ rest.tail ≠ [] ∧ rest.tail.all isDigitCp
  then some (d1, rest.tail) else none

/-- Model of the anchored regexes `^(\d+)<lit>$` (`durationRegex`,
`crfRegex`, `cbrRegex`, `vbrRegex`, `audioBitrateRegex`): true when `s`
is a non-empty digit string followed by the literal suffix. -/
def matchNumSuffix (lit : GoStr) (s : GoStr) : Bool :=
  hasSuffix s lit &&
    (let body := s.take (s.length - lit.length)
     body ≠ [] && body.all isDigitCp)

/-- One iteration of `ParseFilename`'s token classification `switch`,
cases in source order. -/
def classifyToken (sourceFiles : List GoStr) (params : VideoSpec) (part : GoStr) :
    VideoSpec :=
  match matchResolution part with
  | some (d1, d2) =>
    match goAtoi d1, goAtoi d2 with
    | some w, some h => { params with width := w, height := h }
    | _, _ => params
  | none =>
    if hasSuffix part (txt "fps") then
      match goAtoi (trimSuffix part (txt "fps")) with
      | some f => { params with fps := f }
      | none => params
    else if matchNumSuffix (txt "s") part then
      match goAtoi (trimSuffix part (txt "s")) with
      | some d => { params with duration := d }
      | none => params
    else if matchNumSuffix (txt "crf") part then { params with bitrate := part }
    else if matchNumSuffix (txt "cbr") part then { params with bitrate := part }
    else if matchNumSuffix (txt "vbr") part then { params with bitrate := part }
    else if matchNumSuffix (txt "kbps") part then
      match goAtoi (trimSuffix part (txt "kbps")) with
      | some ab => { params with audioBitrate := ab }
      | none => params
    else
      match Resolutions.lookup part with
      | some (w, h) => { params with width := w, height := h }
      | none =>
        if part ∈ ValidVideoCodecs then { params with codec := part }
        else if part ∈ ValidAudioCodecs then { params with audioCodec := part }
        else if part ∈ sourceFiles then { params with name := part }
        else params

/-- `parser.ParseFilename`.  `sourceFiles` is the known source-clip name
set (`getSourceFileNames()`, a directory scan or the test mock).  Returns
`Except` for Go's `(spec, error)` pair. -/
def ParseFilename (sourceFiles : List GoStr) (filename : GoStr) :
    Except GoStr VideoSpec :=
  let ext0 := goToLower (goExt filename)
  let ext := ext0.drop 1
  if ext ≠ [] ∧ ext ∉ ValidContainers then
    .error (txt "invalid container format: " ++ ext ++ txt " (valid formats: [mp4 webm])")
  else
    let base := trimSuffix filename (goExt filename)
    let parts := splitOn 95 base
    let init := if ext ≠ [] then { emptySpec with container := ext } else emptySpec
    .ok (parts.foldl (classifyToken sourceFiles) init)

/-- `parser.GenerateFilename`. -/
def GenerateFilename (spec : VideoSpec) : GoStr :=
  let parts : List GoStr :=
    (if spec.name ≠ [] then [spec.name] else []) ++
    (if spec.codec ≠ [] then [spec.codec] else []) ++
    (if spec.width > 0 ∧ spec.height > 0 ∧ spec.codec ≠ txt "novideo" then
      [intStr spec.width ++ 120 :: intStr spec.height] else []) ++
    (if spec.fps > 0 ∧ spec.codec ≠ txt "novideo" then
      [intStr spec.fps ++ txt "fps"] else []) ++
    (if spec.duration > 0 then [intStr spec.duration ++ txt "s"] else []) ++
    (if spec.bitrate ≠ [] ∧ spec.codec ≠ txt "novideo" then [spec.bitrate] else []) ++
    (if spec.audioCodec ≠ [] then [spec.audioCodec] else []) ++
    (if spec.audioBitrate > 0 ∧ spec.audioCodec ≠ txt "noaudio" then
      [intStr spec.audioBitrate ++ txt "kbps"] else [])
  let filename := joinWith 95 parts
  if spec.container ≠ [] then filename ++ 46 :: spec.container else filename

/-!
## Decimal printing and parsing: round-trip lemmas
-/

/-- Accumulator form of decimal printing: with enough fuel the accumulator
is simply appended. -/
theorem natDigitsCore_append : ∀ (n fuel : Nat) (acc : GoStr), n < fuel →
    natDigitsCore fuel n acc = natDigitsCore (n + 1) n [] ++ acc := by
  intro n
  induction n using Nat.strong_induction_on with
  | _ n ih =>
    intro fuel acc hfuel
    match fuel, hfuel with
    | f + 1, hfuel =>
      by_cases h0 : n / 10 = 0
      · simp [natDigitsCore, h0]
      · have hlt : n / 10 < n := Nat.div_lt_self (by omega) (by omega)
        have h1 : natDigitsCore (f + 1) n acc
            = natDigitsCore f (n / 10) (digitCp (n % 10) :: acc) := by
          simp [natDigitsCore, h0]
        have h2 : natDigitsCore (n + 1) n []
            = natDigitsCore n (n / 10) [digitCp (n % 10)] := by
          simp [natDigitsCore, h0]
        rw [h1, h2, ih (n / 10) hlt f _ (by omega), ih (n / 10) hlt n _ (by omega)]
        simp

/-- Decimal printing unfolded one digit at a time. -/
theorem natDigits_eq (n : Nat) : natDigits n =
    if n < 10 then [digitCp n] else natDigits (n / 10) ++ [digitCp (n % 10)] := by
  by_cases h : n < 10
  · have h0 : n / 10 = 0 := Nat.div_eq_of_lt h
    simp [natDigits, natDigitsCore, h0, h, Nat.mod_eq_of_lt h]
  · have h0 : n / 10 ≠ 0 := by
      intro hc
      exact h (by omega : n < 10)
    simp [natDigits, natDigitsCore, h0, h]
    exact natDigitsCore_append (n / 10) n [digitCp (n % 10)]
      (Nat.div_lt_self (by omega) (by omega))

/-- Every code point of a decimal rendering is an ASCII digit. -/
theorem natDigits_all (n : Nat) : ∀ c ∈ natDigits n, isDigitCp c = true := by
  induction n using Nat.strong_induction_on with
  | _ n ih =>
    rw [natDigits_eq]
    by_cases h : n < 10
    · simp [h, isDigitCp, digitCp]
      omega
    · simp only [if_neg h, List.mem_append, List.mem_singleton]
      rintro c (hc | hc)
      · exact ih (n / 10) (Nat.div_lt_self (by omega) (by omega)) c hc
      · subst hc
        simp [isDigitCp, digitCp]
        omega

/-- A decimal rendering is never empty. -/
theorem natDigits_ne_nil (n : Nat) : natDigits n ≠ [] := by
  rw [natDigits_eq]
  split <;> simp

/-- Folding the digit values over a decimal rendering recovers the
number. -/
theorem natDigits_foldl (n : Nat) :
    (natDigits n).foldl (fun a c => a * 10 + (c - 48)) 0 = n := by
  induction n using Nat.strong_induction_on with
  | _ n ih =>
    rw [natDigits_eq]
    by_cases h : n < 10
    · simp [h, digitCp]
    · simp only [if_neg h, List.foldl_append, List.foldl_cons, List.foldl_nil,
        ih (n / 10) (Nat.div_lt_self (by omega) (by omega)), digitCp]
      omega

/-- `parseDigits` inverts decimal printing. -/
theorem parseDigits_natDigits (n : Nat) : parseDigits (natDigits n) = some n := by
  rw [parseDigits, if_pos ⟨natDigits_ne_nil n, by
    rw [List.all_eq_true]; exact fun c hc => natDigits_all n c hc⟩]
  rw [natDigits_foldl]

/-- A decimal rendering starts with a digit. -/
theorem natDigits_head (n : Nat) :
    ∃ c cs, natDigits n = c :: cs ∧ isDigitCp c = true := by
  rcases h : natDigits n with _ | ⟨c, cs⟩
  · exact absurd h (natDigits_ne_nil n)
  · exact ⟨c, cs, rfl, natDigits_all n c (by rw [h]; exact List.mem_cons_self c cs)⟩

/-- `goAtoi` inverts decimal printing of a natural number. -/
theorem goAtoi_natDigits (n : Nat) : goAtoi (natDigits n) = some (n : Int) := by
  obtain ⟨c, cs, hcons, hdig⟩ := natDigits_head n
  have h48 : 48 ≤ c ∧ c ≤ 57 := by
    simpa [isDigitCp, decide_eq_true_eq] using hdig
  rw [hcons, goAtoi, if_neg (by omega), if_neg (by omega), ← hcons,
    parseDigits_natDigits]
  rfl

/-- `goAtoi` inverts `%d` formatting of a non-negative int. -/
theorem goAtoi_intStr (i : Int) (h : 0 ≤ i) : goAtoi (intStr i) = some i := by
  rw [intStr, if_neg (by omega)]
  rw [goAtoi_natDigits]
  congr 1
  omega

/-!
## String-primitive lemmas
-/

/-- A string always ends with its own appended suffix. -/
theorem hasSuffix_append (a b : GoStr) : hasSuffix (a ++ b) b = true := by
  rw [hasSuffix, List.isSuffixOf_iff_suffix]
  exact List.suffix_append a b

/-- Trimming an appended suffix recovers the prefix. -/
theorem trimSuffix_append (a b : GoStr) : trimSuffix (a ++ b) b = a := by
  rw [trimSuffix, if_pos (hasSuffix_append a b)]
  have hl : (a ++ b).length - b.length = a.length := by
    simp
  rw [hl, List.take_left]

/-- A string always starts with its own prepended prefix. -/
theorem hasPrefix_append (a b : GoStr) : hasPrefix (a ++ b) a = true := by
  rw [hasPrefix, List.isPrefixOf_iff_prefix]
  exact List.prefix_append a b

/-- Trimming a prepended prefix recovers the suffix. -/
theorem trimPrefix_append (a b : GoStr) : trimPrefix (a ++ b) a = b := by
  rw [trimPrefix, if_pos (hasPrefix_append a b), List.drop_left]

/-- A suffix probe longer than the clashing tail: prepending more text on
the left cannot create the suffix. -/
theorem hasSuffix_append_right (dd t lit : GoStr) (hlen : lit.length ≤ t.length)
    (h : hasSuffix t lit = false) : hasSuffix (dd ++ t) lit = false := by
  rw [hasSuffix, Bool.eq_false_iff, Ne, List.isSuffixOf_iff_suffix] at h ⊢
  intro hsuf
  apply h
  obtain ⟨q, hq⟩ := hsuf
  refine ⟨q.drop dd.length, ?_⟩
  have hlq : dd.length ≤ q.length := by
    have := congrArg List.length hq
    simp at this
    omega
  have hdrop : q.drop dd.length ++ lit = (q ++ lit).drop dd.length := by
    rw [List.drop_append_of_le_length hlq]
  rw [hdrop, hq, List.drop_left]

/-- A digit string followed by `"s"` does not end in `"fps"`. -/
theorem no_fps_suffix_of_digits_s (dd : GoStr) (h : dd.all isDigitCp = true) :
    hasSuffix (dd ++ [115]) (txt "fps") = false := by
  rw [hasSuffix, Bool.eq_false_iff, Ne, List.isSuffixOf_iff_suffix]
  rintro ⟨q, hq⟩
  have hq' : (q ++ [102, 112]) ++ [115] = dd ++ [115] := by
    simpa [txt] using hq
  have hmem : (112 : Nat) ∈ dd := by
    rw [← List.append_cancel_right hq']
    simp
  have := (List.all_eq_true.mp h) 112 hmem
  simp [isDigitCp] at this

/-- A string without the code point `x` (120) never matches the
`WIDTHxHEIGHT` pattern. -/
theorem matchResolution_no_x (s : GoStr) (h : (120 : Nat) ∉ s) :
    matchResolution s = none := by
  rw [matchResolution]
  apply if_neg
  rintro ⟨-, hhead, -, -⟩
  rcases hdw : s.dropWhile isDigitCp with _ | ⟨c, d2⟩
  · rw [hdw] at hhead
    simp at hhead
  · rw [hdw] at hhead
    simp only [List.head?_cons, Option.some.injEq] at hhead
    apply h
    rw [← hhead]
    exact (List.dropWhile_sublist isDigitCp).mem
      (by rw [hdw]; exact List.mem_cons_self c d2)

/-- The `WIDTHxHEIGHT` pattern on a rendered `"<w>x<h>"` token. -/
theorem matchResolution_render (w h : Nat) :
    matchResolution (natDigits w ++ 120 :: natDigits h)
      = some (natDigits w, natDigits h) := by
  have htake : (natDigits w ++ 120 :: natDigits h).takeWhile isDigitCp = natDigits w := by
    rw [List.takeWhile_append,
      if_pos (by rw [List.takeWhile_eq_self_iff.mpr (natDigits_all w)])]
    simp [List.takeWhile_cons, isDigitCp]
  have hdrop : (natDigits w ++ 120 :: natDigits h).dropWhile isDigitCp
      = 120 :: natDigits h := by
    rw [List.dropWhile_append]
    have : (natDigits w).dropWhile isDigitCp = [] :=
      List.dropWhile_eq_nil_iff.mpr (natDigits_all w)
    simp [this, List.dropWhile_cons, isDigitCp]
  rw [matchResolution]
  simp only [htake, hdrop, List.head?_cons, List.tail_cons]
  rw [if_pos ?_]
  exact ⟨natDigits_ne_nil w, by simp, natDigits_ne_nil h,
    List.all_eq_true.mpr (natDigits_all h)⟩

/-- `matchNumSuffix` holds on a rendered `"<digits><lit>"` token. -/
theorem matchNumSuffix_render (lit dd : GoStr) (hdd : dd ≠ [])
    (hdig : dd.all isDigitCp = true) :
    matchNumSuffix lit (dd ++ lit) = true := by
  rw [matchNumSuffix, hasSuffix_append]
  have hl : (dd ++ lit).length - lit.length = dd.length := by simp
  simp only [hl, List.take_left, Bool.true_and]
  simp [hdd, hdig]

/-- `matchNumSuffix` fails when the suffix is present but the body is not
all digits. -/
theorem matchNumSuffix_false_of_body (lit s : GoStr)
    (h : ¬((s.take (s.length - lit.length)) ≠ [] ∧
      (s.take (s.length - lit.length)).all isDigitCp = true)) :
    matchNumSuffix lit s = false := by
  rw [matchNumSuffix]
  rcases hs : hasSuffix s lit with _ | _
  · simp
  · simp only [Bool.true_and]
    rcases h1 : s.take (s.length - lit.length) with _ | ⟨c, cs⟩ <;>
      simp_all

/-- `matchNumSuffix` fails when the literal suffix is absent. -/
theorem matchNumSuffix_false_of_suffix (lit s : GoStr)
    (h : hasSuffix s lit = false) : matchNumSuffix lit s = false := by
  simp [matchNumSuffix, h]

/-- `splitOn` never returns the empty list. -/
theorem splitOn_ne_nil (sep : Nat) (s : GoStr) : splitOn sep s ≠ [] := by
  induction s with
  | nil => simp [splitOn]
  | cons c rest ih =>
    rw [splitOn]
    rcases h : splitOn sep rest with _ | ⟨g, gs⟩
    · simp
    · by_cases hc : c = sep <;> simp [hc]

/-- Splitting at the first separator after a separator-free prefix. -/
theorem splitOn_sep_cons (sep : Nat) (p R : GoStr) (hp : sep ∉ p) :
    splitOn sep (p ++ sep :: R) = p :: splitOn sep R := by
  induction p with
  | nil =>
    rw [List.nil_append, splitOn]
    rcases h : splitOn sep R with _ | ⟨g, gs⟩
    · exact absurd h (splitOn_ne_nil sep R)
    · simp
  | cons c p' ih =>
    have hc : c ≠ sep := fun hcs => hp (by simp [hcs])
    have hp' : sep ∉ p' := fun hm => hp (by simp [hm])
    rw [List.cons_append, splitOn, ih hp']
    simp [hc]

/-- A separator-free string is a single field. -/
theorem splitOn_no_sep (sep : Nat) (p : GoStr) (hp : sep ∉ p) :
    splitOn sep p = [p] := by
  induction p with
  | nil => simp [splitOn]
  | cons c p' ih =>
    have hc : c ≠ sep := fun hcs => hp (by simp [hcs])
    have hp' : sep ∉ p' := fun hm => hp (by simp [hm])
    rw [splitOn, ih hp']
    simp [hc]

/-- `splitOn` inverts `joinWith` on separator-free fields. -/
theorem splitOn_joinWith (sep : Nat) :
    ∀ parts : List GoStr, parts ≠ [] → (∀ p ∈ parts, sep ∉ p) →
      splitOn sep (joinWith sep parts) = parts := by
  intro parts
  induction parts with
  | nil => simp
  | cons p rest ih =>
    intro _ hfree
    rcases rest with _ | ⟨q, rest'⟩
    · exact splitOn_no_sep sep p (hfree p (by simp))
    · rw [joinWith, splitOn_sep_cons sep p _ (hfree p (by simp))]
      rw [ih (by simp) (fun r hr => hfree r (by simp [hr]))]

/-- `extRevScan` walks through characters that are neither a separator
nor a dot. -/
theorem extRevScan_through (r : GoStr) (h : ∀ c ∈ r, c ≠ 47 ∧ c ≠ 46) :
    ∀ (rest acc : GoStr), extRevScan (r ++ 46 :: rest) acc = 46 :: (r.reverse ++ acc) := by
  induction r with
  | nil => simp [extRevScan]
  | cons c r' ih =>
    intro rest acc
    have hc := h c (by simp)
    rw [List.cons_append, extRevScan, if_neg hc.1, if_neg hc.2,
      ih (fun d hd => h d (by simp [hd])) rest (c :: acc)]
    simp

/-- The extension of a rendered `"<body>.<ext>"` filename whose extension
part is free of dots and separators. -/
theorem goExt_append (body ext : GoStr) (h : ∀ c ∈ ext, c ≠ 47 ∧ c ≠ 46) :
    goExt (body ++ 46 :: ext) = 46 :: ext := by
  rw [goExt]
  have hrev : (body ++ 46 :: ext).reverse = ext.reverse ++ 46 :: body.reverse := by
    simp
  rw [hrev, extRevScan_through ext.reverse
    (fun c hc => h c (List.mem_reverse.mp hc)) body.reverse []]
  simp

/-!
## Token classification lemmas
-/

/-- A code point that is not a digit never occurs in a decimal
rendering. -/
theorem not_mem_natDigits (n x : Nat) (hx : isDigitCp x = false) :
    x ∉ natDigits n := by
  intro hm
  rw [natDigits_all n x hm] at hx
  cases hx

/-- Association-list lookup misses a key outside the key set. -/
theorem lookup_eq_none_of_not_mem {β : Type} (m : List (GoStr × β)) (k : GoStr)
    (h : k ∉ m.map Prod.fst) : m.lookup k = none := by
  induction m with
  | nil => rfl
  | cons e rest ih =>
    obtain ⟨a, b⟩ := e
    rw [List.map_cons] at h
    have hk : (k == a) = false := by
      rw [beq_eq_false_iff_ne]
      exact fun he => h (by simp [he])
    simp only [List.lookup, hk]
    exact ih fun hm => h (List.mem_cons_of_mem _ hm)

/-- Classification of a token that falls through every pattern to the
source-file membership test. -/
theorem classify_name (sf : List GoStr) (p : VideoSpec) (part : GoStr)
    (h1 : matchResolution part = none)
    (h2 : hasSuffix part (txt "fps") = false)
    (h3 : matchNumSuffix (txt "s") part = false)
    (h4 : matchNumSuffix (txt "crf") part = false)
    (h5 : matchNumSuffix (txt "cbr") part = false)
    (h6 : matchNumSuffix (txt "vbr") part = false)
    (h7 : matchNumSuffix (txt "kbps") part = false)
    (h8 : Resolutions.lookup part = none)
    (h9 : part ∉ ValidVideoCodecs)
    (h10 : part ∉ ValidAudioCodecs)
    (h11 : part ∈ sf) :
    classifyToken sf p part = { p with name := part } := by
  simp [classifyToken, h1, h2, h3, h4, h5, h6, h7, h8, h9, h10, h11]

/-- Classification of a valid video codec token. -/
theorem classify_codec (sf : List GoStr) (p : VideoSpec) (part : GoStr)
    (h1 : matchResolution part = none)
    (h2 : hasSuffix part (txt "fps") = false)
    (h3 : matchNumSuffix (txt "s") part = false)
    (h4 : matchNumSuffix (txt "crf") part = false)
    (h5 : matchNumSuffix (txt "cbr") part = false)
    (h6 : matchNumSuffix (txt "vbr") part = false)
    (h7 : matchNumSuffix (txt "kbps") part = false)
    (h8 : Resolutions.lookup part = none)
    (h9 : part ∈ ValidVideoCodecs) :
    classifyToken sf p part = { p with codec := part } := by
  simp only [classifyToken, h1, h2, h3, h4, h5, h6, h7, h8, h9,
    Bool.false_eq_true, if_false, if_true]

/-- Classification of a valid audio codec token. -/
theorem classify_audio (sf : List GoStr) (p : VideoSpec) (part : GoStr)
    (h1 : matchResolution part = none)
    (h2 : hasSuffix part (txt "fps") = false)
    (h3 : matchNumSuffix (txt "s") part = false)
    (h4 : matchNumSuffix (txt "crf") part = false)
    (h5 : matchNumSuffix (txt "cbr") part = false)
    (h6 : matchNumSuffix (txt "vbr") part = false)
    (h7 : matchNumSuffix (txt "kbps") part = false)
    (h8 : Resolutions.lookup part = none)
    (h9 : part ∉ ValidVideoCodecs)
    (h10 : part ∈ ValidAudioCodecs) :
    classifyToken sf p part = { p with audioCodec := part } := by
  simp only [classifyToken, h1, h2, h3, h4, h5, h6, h7, h8, h9, h10,
    Bool.false_eq_true, if_false, if_true]

/-- Classification of a rendered `"<w>x<h>"` token. -/
theorem classify_wh (sf : List GoStr) (p : VideoSpec) (w h : Nat) :
    classifyToken sf p (natDigits w ++ 120 :: natDigits h)
      = { p with width := (w : Int), height := (h : Int) } := by
  simp only [classifyToken, matchResolution_render, goAtoi_natDigits]

/-- Classification of a rendered `"<f>fps"` token. -/
theorem classify_fps (sf : List GoStr) (p : VideoSpec) (f : Nat) :
    classifyToken sf p (natDigits f ++ txt "fps") = { p with fps := (f : Int) } := by
  have h1 : matchResolution (natDigits f ++ txt "fps") = none := by
    apply matchResolution_no_x
    intro hm
    rcases List.mem_append.mp hm with hm | hm
    · exact not_mem_natDigits f 120 (by decide) hm
    · simp [txt] at hm
  have h2 : hasSuffix (natDigits f ++ txt "fps") (txt "fps") = true :=
    hasSuffix_append _ _
  simp only [classifyToken, h1, h2, if_true, trimSuffix_append,
    goAtoi_natDigits]

/-- Classification of a rendered `"<d>s"` token. -/
theorem classify_dur (sf : List GoStr) (p : VideoSpec) (d : Nat) :
    classifyToken sf p (natDigits d ++ txt "s") = { p with duration := (d : Int) } := by
  have hts : txt "s" = [115] := by decide
  have h1 : matchResolution (natDigits d ++ txt "s") = none := by
    apply matchResolution_no_x
    intro hm
    rcases List.mem_append.mp hm with hm | hm
    · exact not_mem_natDigits d 120 (by decide) hm
    · simp [txt] at hm
  have h2 : hasSuffix (natDigits d ++ txt "s") (txt "fps") = false := by
    rw [hts]
    exact no_fps_suffix_of_digits_s (natDigits d) (List.all_eq_true.mpr (natDigits_all d))
  have h3 : matchNumSuffix (txt "s") (natDigits d ++ txt "s") = true :=
    matchNumSuffix_render _ _ (natDigits_ne_nil d) (List.all_eq_true.mpr (natDigits_all d))
  simp only [classifyToken, h1, h2, h3, Bool.false_eq_true, if_false, if_true,
    trimSuffix_append, goAtoi_natDigits]

/-- Classification of a bitrate token `"<digits>crf"`. -/
theorem classify_crf (sf : List GoStr) (p : VideoSpec) (dd : GoStr)
    (hdd : dd ≠ []) (hdig : dd.all isDigitCp = true) :
    classifyToken sf p (dd ++ txt "crf") = { p with bitrate := dd ++ txt "crf" } := by
  have h1 : matchResolution (dd ++ txt "crf") = none := by
    apply matchResolution_no_x
    intro hm
    rcases List.mem_append.mp hm with hm | hm
    · have := (List.all_eq_true.mp hdig) 120 hm
      simp [isDigitCp] at this
    · simp [txt] at hm
  have h2 : hasSuffix (dd ++ txt "crf") (txt "fps") = false :=
    hasSuffix_append_right dd _ _ (by decide) (by decide)
  have h3 : matchNumSuffix (txt "s") (dd ++ txt "crf") = false :=
    matchNumSuffix_false_of_suffix _ _
      (hasSuffix_append_right dd _ _ (by decide) (by decide))
  have h4 : matchNumSuffix (txt "crf") (dd ++ txt "crf") = true :=
    matchNumSuffix_render _ _ hdd hdig
  simp only [classifyToken, h1, h2, h3, h4, Bool.false_eq_true, if_false, if_true]

/-- Classification of a bitrate token `"<digits>cbr"`. -/
theorem classify_cbr (sf : List GoStr) (p : VideoSpec) (dd : GoStr)
    (hdd : dd ≠ []) (hdig : dd.all isDigitCp = true) :
    classifyToken sf p (dd ++ txt "cbr") = { p with bitrate := dd ++ txt "cbr" } := by
  have h1 : matchResolution (dd ++ txt "cbr") = none := by
    apply matchResolution_no_x
    intro hm
    rcases List.mem_append.mp hm with hm | hm
    · have := (List.all_eq_true.mp hdig) 120 hm
      simp [isDigitCp] at this
    · simp [txt] at hm
  have h2 : hasSuffix (dd ++ txt "cbr") (txt "fps") = false :=
    hasSuffix_append_right dd _ _ (by decide) (by decide)
  have h3 : matchNumSuffix (txt "s") (dd ++ txt "cbr") = false :=
    matchNumSuffix_false_of_suffix _ _
      (hasSuffix_append_right dd _ _ (by decide) (by decide))
  have h4 : matchNumSuffix (txt "crf") (dd ++ txt "cbr") = false :=
    matchNumSuffix_false_of_suffix _ _
      (hasSuffix_append_right dd _ _ (by decide) (by decide))
  have h5 : matchNumSuffix (txt "cbr") (dd ++ txt "cbr") = true :=
    matchNumSuffix_render _ _ hdd hdig
  simp only [classifyToken, h1, h2, h3, h4, h5, Bool.false_eq_true, if_false, if_true]

/-- Classification of a bitrate token `"<digits>vbr"`. -/
theorem classify_vbr (sf : List GoStr) (p : VideoSpec) (dd : GoStr)
    (hdd : dd ≠ []) (hdig : dd.all isDigitCp = true) :
    classifyToken sf p (dd ++ txt "vbr") = { p with bitrate := dd ++ txt "vbr" } := by
  have h1 : matchResolution (dd ++ txt "vbr") = none := by
    apply matchResolution_no_x
    intro hm
    rcases List.mem_append.mp hm with hm | hm
    · have := (List.all_eq_true.mp hdig) 120 hm
      simp [isDigitCp] at this
    · simp [txt] at hm
  have h2 : hasSuffix (dd ++ txt "vbr") (txt "fps") = false :=
    hasSuffix_append_right dd _ _ (by decide) (by decide)
  have h3 : matchNumSuffix (txt "s") (dd ++ txt "vbr") = false :=
    matchNumSuffix_false_of_suffix _ _
      (hasSuffix_append_right dd _ _ (by decide) (by decide))
  have h4 : matchNumSuffix (txt "crf") (dd ++ txt "vbr") = false :=
    matchNumSuffix_false_of_suffix _ _
      (hasSuffix_append_right dd _ _ (by decide) (by decide))
  have h5 : matchNumSuffix (txt "cbr") (dd ++ txt "vbr") = false :=
    matchNumSuffix_false_of_suffix _ _
      (hasSuffix_append_right dd _ _ (by decide) (by decide))
  have h6 : matchNumSuffix (txt "vbr") (dd ++ txt "vbr") = true :=
    matchNumSuffix_render _ _ hdd hdig
  simp only [classifyToken, h1, h2, h3, h4, h5, h6, Bool.false_eq_true,
    if_false, if_true]

/-- Classification of a rendered `"<a>kbps"` token. -/
theorem classify_kbps (sf : List GoStr) (p : VideoSpec) (a : Nat) :
    classifyToken sf p (natDigits a ++ txt "kbps")
      = { p with audioBitrate := (a : Int) } := by
  have hdig : (natDigits a).all isDigitCp = true := List.all_eq_true.mpr (natDigits_all a)
  have h1 : matchResolution (natDigits a ++ txt "kbps") = none := by
    apply matchResolution_no_x
    intro hm
    rcases List.mem_append.mp hm with hm | hm
    · exact not_mem_natDigits a 120 (by decide) hm
    · simp [txt] at hm
  have h2 : hasSuffix (natDigits a ++ txt "kbps") (txt "fps") = false :=
    hasSuffix_append_right _ _ _ (by decide) (by decide)
  have h3 : matchNumSuffix (txt "s") (natDigits a ++ txt "kbps") = false := by
    apply matchNumSuffix_false_of_body
    have hlen : (natDigits a ++ txt "kbps").length - (txt "s").length
        = (natDigits a).length + 3 := by
      simp [txt]
    have htake : (natDigits a ++ txt "kbps").take ((natDigits a).length + 3)
        = natDigits a ++ (txt "kbps").take 3 := List.take_append 3
    rw [hlen, htake]
    rintro ⟨-, hall⟩
    have : isDigitCp 107 = true := by
      refine (List.all_eq_true.mp hall) 107 ?_
      simp [txt]
    simp [isDigitCp] at this
  have h4 : matchNumSuffix (txt "crf") (natDigits a ++ txt "kbps") = false :=
    matchNumSuffix_false_of_suffix _ _
      (hasSuffix_append_right _ _ _ (by decide) (by decide))
  have h5 : matchNumSuffix (txt "cbr") (natDigits a ++ txt "kbps") = false :=
    matchNumSuffix_false_of_suffix _ _
      (hasSuffix_append_right _ _ _ (by decide) (by decide))
  have h6 : matchNumSuffix (txt "vbr") (natDigits a ++ txt "kbps") = false :=
    matchNumSuffix_false_of_suffix _ _
      (hasSuffix_append_right _ _ _ (by decide) (by decide))
  have h7 : matchNumSuffix (txt "kbps") (natDigits a ++ txt "kbps") = true :=
    matchNumSuffix_render _ _ (natDigits_ne_nil a) hdig
  simp only [classifyToken, h1, h2, h3, h4, h5, h6, h7, Bool.false_eq_true,
    if_false, if_true, trimSuffix_append, goAtoi_natDigits]

/-!
## Round trip of the spec codec
-/

/-- `%d` formatting of a non-negative int is plain decimal printing. -/
theorem intStr_nonneg (i : Int) (h : 0 ≤ i) : intStr i = natDigits i.toNat := by
  rw [intStr, if_neg (by omega)]

/-- Catalog resolutions have positive dimensions. -/
theorem resolution_pos (nm : GoStr) (w h : Int) (hm : (nm, w, h) ∈ Resolutions) :
    0 < w ∧ 0 < h := by
  simp only [Resolutions, List.mem_cons, List.not_mem_nil, or_false,
    Prod.mk.injEq] at hm
  rcases hm with ⟨-, h1, h2⟩ | ⟨-, h1, h2⟩ | ⟨-, h1, h2⟩ | ⟨-, h1, h2⟩ |
    ⟨-, h1, h2⟩ | ⟨-, h1, h2⟩ | ⟨-, h1, h2⟩ <;>
    (subst h1; subst h2; exact ⟨by norm_num, by norm_num⟩)

/-- A valid video codec token falls through every earlier classification
case. -/
theorem codec_token_facts (c : GoStr) (hc : c ∈ ValidVideoCodecs) :
    matchResolution c = none ∧ hasSuffix c (txt "fps") = false ∧
    matchNumSuffix (txt "s") c = false ∧ matchNumSuffix (txt "crf") c = false ∧
    matchNumSuffix (txt "cbr") c = false ∧ matchNumSuffix (txt "vbr") c = false ∧
    matchNumSuffix (txt "kbps") c = false ∧ Resolutions.lookup c = none ∧
    c ≠ [] ∧ (95 : Nat) ∉ c := by
  simp only [ValidVideoCodecs, VideoCodecNameMap, List.map_cons, List.map_nil,
    List.mem_cons, List.not_mem_nil, or_false] at hc
  rcases hc with h | h | h | h | h <;> (subst h; decide)

/-- A valid audio codec token falls through every earlier classification
case, including the video codec set. -/
theorem audio_token_facts (c : GoStr) (hc : c ∈ ValidAudioCodecs) :
    matchResolution c = none ∧ hasSuffix c (txt "fps") = false ∧
    matchNumSuffix (txt "s") c = false ∧ matchNumSuffix (txt "crf") c = false ∧
    matchNumSuffix (txt "cbr") c = false ∧ matchNumSuffix (txt "vbr") c = false ∧
    matchNumSuffix (txt "kbps") c = false ∧ Resolutions.lookup c = none ∧
    c ∉ ValidVideoCodecs ∧ c ≠ [] ∧ (95 : Nat) ∉ c := by
  simp only [ValidAudioCodecs, AudioCodecNameMap, List.map_cons, List.map_nil,
    List.mem_cons, List.not_mem_nil, or_false] at hc
  rcases hc with h | h | h | h <;> (subst h; decide)

/-- Classification of a well-formed bitrate token. -/
theorem classify_bitrate (sf : List GoStr) (p : VideoSpec) (bit dd : GoStr)
    (hdd : dd ≠ []) (hdig : dd.all isDigitCp = true)
    (hcase : bit = dd ++ txt "crf" ∨ bit = dd ++ txt "cbr" ∨ bit = dd ++ txt "vbr") :
    classifyToken sf p bit = { p with bitrate := bit } := by
  rcases hcase with h | h | h <;> subst h
  · exact classify_crf sf p dd hdd hdig
  · exact classify_cbr sf p dd hdd hdig
  · exact classify_vbr sf p dd hdd hdig

/-- Parsing inverts rendering.  The hypotheses spell out "fully resolved
with a classifiable clip name": every field non-zero, codec and audio
codec valid with neither track disabled, a well-formed bitrate token, a
whitelisted container, and a clip name that is in the source set, is free
of `_`, and matches no other token class. -/
theorem parse_generate (sf : List GoStr) (s : VideoSpec)
    (hname : s.name ∈ sf)
    (hn1 : matchResolution s.name = none)
    (hn2 : hasSuffix s.name (txt "fps") = false)
    (hn3 : matchNumSuffix (txt "s") s.name = false)
    (hn4 : matchNumSuffix (txt "crf") s.name = false)
    (hn5 : matchNumSuffix (txt "cbr") s.name = false)
    (hn6 : matchNumSuffix (txt "vbr") s.name = false)
    (hn7 : matchNumSuffix (txt "kbps") s.name = false)
    (hn8 : Resolutions.lookup s.name = none)
    (hn9 : s.name ∉ ValidVideoCodecs)
    (hn10 : s.name ∉ ValidAudioCodecs)
    (hn11 : s.name ≠ [])
    (hn12 : (95 : Nat) ∉ s.name)
    (hcodec : s.codec ∈ ValidVideoCodecs) (hnov : s.codec ≠ txt "novideo")
    (hw : 0 < s.width) (hh : 0 < s.height)
    (hfps : 0 < s.fps) (hdur : 0 < s.duration)
    (hbit : ∃ dd, dd ≠ [] ∧ dd.all isDigitCp = true ∧
      (s.bitrate = dd ++ txt "crf" ∨ s.bitrate = dd ++ txt "cbr" ∨
        s.bitrate = dd ++ txt "vbr"))
    (haud : s.audioCodec ∈ ValidAudioCodecs) (hnoa : s.audioCodec ≠ txt "noaudio")
    (hab : 0 < s.audioBitrate)
    (hcont : s.container ∈ ValidContainers) :
    ParseFilename sf (GenerateFilename s) = .ok s := by
  obtain ⟨nm, w, h, dur, cod, fps, bit, aud, ab, cont⟩ := s
  dsimp only at *
  obtain ⟨dd, hdd, hdig, hbitcase⟩ := hbit
  obtain ⟨hc1, hc2, hc3, hc4, hc5, hc6, hc7, hc8, hc9, hc10⟩ :=
    codec_token_facts cod hcodec
  obtain ⟨ha1, ha2, ha3, ha4, ha5, ha6, ha7, ha8, ha9, ha10, ha11⟩ :=
    audio_token_facts aud haud
  have hcont2 : cont = txt "mp4" ∨ cont = txt "webm" := by
    simpa [ValidContainers] using hcont
  have hbitnil : bit ≠ [] := by
    rcases hbitcase with hb | hb | hb <;> (subst hb; simp [hdd])
  have hbit95 : (95 : Nat) ∉ bit := by
    rcases hbitcase with hb | hb | hb <;>
      (subst hb
       intro hm
       rcases List.mem_append.mp hm with hm | hm
       · have := (List.all_eq_true.mp hdig) 95 hm
         simp [isDigitCp] at this
       · simp [txt] at hm)
  have hcontnil : cont ≠ [] := by rcases hcont2 with hb | hb <;> (subst hb; decide)
  have hcontchars : ∀ c ∈ cont, c ≠ 47 ∧ c ≠ 46 := by
    rcases hcont2 with hb | hb <;> (subst hb; decide)
  have hlow : goToLower (46 :: cont) = 46 :: cont := by
    rcases hcont2 with hb | hb <;> (subst hb; decide)
  -- the rendered filename, token by token
  have hgen : GenerateFilename ⟨nm, w, h, dur, cod, fps, bit, aud, ab, cont⟩
      = joinWith 95 [nm, cod, natDigits w.toNat ++ 120 :: natDigits h.toNat,
          natDigits fps.toNat ++ txt "fps", natDigits dur.toNat ++ txt "s",
          bit, aud, natDigits ab.toNat ++ txt "kbps"] ++ 46 :: cont := by
    rw [GenerateFilename]
    dsimp only
    rw [if_pos hn11, if_pos hc9,
      if_pos (show w > 0 ∧ h > 0 ∧ cod ≠ txt "novideo" from ⟨hw, hh, hnov⟩),
      if_pos (show fps > 0 ∧ cod ≠ txt "novideo" from ⟨hfps, hnov⟩),
      if_pos (show dur > 0 from hdur),
      if_pos (show bit ≠ [] ∧ cod ≠ txt "novideo" from ⟨hbitnil, hnov⟩),
      if_pos ha10,
      if_pos (show ab > 0 ∧ aud ≠ txt "noaudio" from ⟨hab, hnoa⟩),
      if_pos hcontnil, intStr_nonneg w (by omega), intStr_nonneg h (by omega),
      intStr_nonneg fps (by omega), intStr_nonneg dur (by omega),
      intStr_nonneg ab (by omega)]
    simp only [List.cons_append, List.nil_append]
  set body := joinWith 95 [nm, cod, natDigits w.toNat ++ 120 :: natDigits h.toNat,
      natDigits fps.toNat ++ txt "fps", natDigits dur.toNat ++ txt "s",
      bit, aud, natDigits ab.toNat ++ txt "kbps"] with hbody
  have hext : goExt (body ++ 46 :: cont) = 46 :: cont := goExt_append body cont hcontchars
  have hsplit : splitOn 95 body
      = [nm, cod, natDigits w.toNat ++ 120 :: natDigits h.toNat,
          natDigits fps.toNat ++ txt "fps", natDigits dur.toNat ++ txt "s",
          bit, aud, natDigits ab.toNat ++ txt "kbps"] := by
    rw [hbody]
    apply splitOn_joinWith 95 _ (by simp)
    intro p hp
    have hnum : ∀ k : Nat, (95 : Nat) ∉ natDigits k :=
      fun k => not_mem_natDigits k 95 (by decide)
    simp only [List.mem_cons, List.not_mem_nil, or_false] at hp
    rcases hp with hp | hp | hp | hp | hp | hp | hp | hp <;> subst hp
    · exact hn12
    · exact hc10
    · intro hm
      rcases List.mem_append.mp hm with hm | hm
      · exact hnum _ hm
      · rcases List.mem_cons.mp hm with hm | hm
        · omega
        · exact hnum _ hm
    · intro hm
      rcases List.mem_append.mp hm with hm | hm
      · exact hnum _ hm
      · simp [txt] at hm
    · intro hm
      rcases List.mem_append.mp hm with hm | hm
      · exact hnum _ hm
      · simp [txt] at hm
    · exact hbit95
    · exact ha11
    · intro hm
      rcases List.mem_append.mp hm with hm | hm
      · exact hnum _ hm
      · simp [txt] at hm
  rw [hgen]
  simp only [ParseFilename, hext, hlow, List.drop_succ_cons, List.drop_zero]
  rw [if_neg (by
    rintro ⟨-, hnc⟩
    exact hnc hcont), trimSuffix_append body (46 :: cont), hsplit]
  rw [if_pos hcontnil]
  rw [List.foldl_cons, classify_name sf _ nm hn1 hn2 hn3 hn4 hn5 hn6 hn7 hn8
    hn9 hn10 hname]
  rw [List.foldl_cons, classify_codec sf _ cod hc1 hc2 hc3 hc4 hc5 hc6 hc7 hc8
    hcodec]
  rw [List.foldl_cons, classify_wh]
  rw [List.foldl_cons, classify_fps]
  rw [List.foldl_cons, classify_dur]
  rw [List.foldl_cons, classify_bitrate sf _ bit dd hdd hdig hbitcase]
  rw [List.foldl_cons, classify_audio sf _ aud ha1 ha2 ha3 ha4 ha5 ha6 ha7 ha8
    ha9 haud]
  rw [List.foldl_cons, classify_kbps, List.foldl_nil]
  simp only [Except.ok.injEq, VideoSpec.mk.injEq]
  and_intros <;> first | trivial | omega

/-- C1, counterexample.  The round-trip law as stated fails: with the clip
`"720p"` in the known source-clip set, the fully resolved specification
named `"720p"` (catalog resolution 1280×720, h264/aac/mp4, all fields
non-zero, no track disabled) renders to a filename whose leading token
re-parses as the resolution preset `240p`-style lookup rather than as the
clip name, so `render(parse(render(s)))` differs from `render(s)`. -/
theorem claim_C1_counterexample :
    (ParseFilename [txt "720p"] (GenerateFilename
        ⟨txt "720p", 1280, 720, 20, txt "h264", 30, txt "25crf", txt "aac", 128,
          txt "mp4"⟩)).map GenerateFilename
      ≠ .ok (GenerateFilename ⟨txt "720p", 1280, 720, 20, txt "h264", 30,
          txt "25crf", txt "aac", 128, txt "mp4"⟩) := by decide

/-- C1, amended.  Round-trip law of the spec codec: for every fully
resolved specification — every field non-zero, codec/audio codec/container
and resolution drawn from the catalog sets, tracks not disabled, bitrate a
well-formed `<n>crf|cbr|vbr` token — whose clip name is in the known
source-clip set **and** is classifiable as a clip name (it contains no
underscore and matches no other token class: not a `WxH`/`fps`/duration/
bitrate/kbps pattern and not a preset, codec, or audio codec name),
`GenerateFilename (ParseFilename (GenerateFilename s)) = GenerateFilename s`. -/
theorem claim_C1_roundTrip (sf : List GoStr) (s : VideoSpec)
    (hname : s.name ∈ sf)
    (hn1 : matchResolution s.name = none)
    (hn2 : hasSuffix s.name (txt "fps") = false)
    (hn3 : matchNumSuffix (txt "s") s.name = false)
    (hn4 : matchNumSuffix (txt "crf") s.name = false)
    (hn5 : matchNumSuffix (txt "cbr") s.name = false)
    (hn6 : matchNumSuffix (txt "vbr") s.name = false)
    (hn7 : matchNumSuffix (txt "kbps") s.name = false)
    (hn8 : Resolutions.lookup s.name = none)
    (hn9 : s.name ∉ ValidVideoCodecs)
    (hn10 : s.name ∉ ValidAudioCodecs)
    (hn11 : s.name ≠ [])
    (hn12 : (95 : Nat) ∉ s.name)
    (hres : ∃ nm, (nm, s.width, s.height) ∈ Resolutions)
    (hcodec : s.codec ∈ ValidVideoCodecs) (hnov : s.codec ≠ txt "novideo")
    (hfps : 0 < s.fps) (hdur : 0 < s.duration)
    (hbit : ∃ dd, dd ≠ [] ∧ dd.all isDigitCp = true ∧
      (s.bitrate = dd ++ txt "crf" ∨ s.bitrate = dd ++ txt "cbr" ∨
        s.bitrate = dd ++ txt "vbr"))
    (haud : s.audioCodec ∈ ValidAudioCodecs) (hnoa : s.audioCodec ≠ txt "noaudio")
    (hab : 0 < s.audioBitrate)
    (hcont : s.container ∈ ValidContainers) :
    (ParseFilename sf (GenerateFilename s)).map GenerateFilename
      = .ok (GenerateFilename s) := by
  obtain ⟨nm0, hres⟩ := hres
  obtain ⟨hw, hh⟩ := resolution_pos nm0 s.width s.height hres
  rw [parse_generate sf s hname hn1 hn2 hn3 hn4 hn5 hn6 hn7 hn8 hn9 hn10 hn11
    hn12 hcodec hnov hw hh hfps hdur hbit haud hnoa hab hcont]
  rfl

/-- C1 witness: the amended round-trip law applied to the default
specification with source clip `"bunny"`. -/
theorem claim_C1_roundTrip_witness :
    (ParseFilename [txt "bunny"] (GenerateFilename DefaultVideoSpec)).map
        GenerateFilename
      = .ok (GenerateFilename DefaultVideoSpec) :=
  claim_C1_roundTrip [txt "bunny"] DefaultVideoSpec (by decide) (by decide)
    (by decide) (by decide) (by decide) (by decide) (by decide) (by decide)
    (by decide) (by decide) (by decide) (by decide) (by decide)
    ⟨txt "720p", by decide⟩ (by decide) (by decide) (by decide) (by decide)
    ⟨txt "25", by decide, by decide, Or.inl (by decide)⟩ (by decide)
    (by decide) (by decide) (by decide)

/-!
## HLS virtual-live engine (`internal/rest/serveHLS.go`)

The handler's outcome is modeled per branch over an abstracted filesystem:
`resolutionOk` is the `os.Stat`/`IsDir` check of the tier directory,
`glob` the result of `filepath.Glob("chunk_*.mp4")` in it (`none` models a
glob error), and `now` the `time.Now().Unix()` wall-clock parameter.
`strings.Builder` output is modeled as the list of written lines: every
`WriteString` call of the source writes exactly one `\n`-terminated line,
which becomes one list element (without the terminator).
-/

/-- Client-visible outcome of a ServeHLS branch: an `http.Error`, the
generated playlist body, or `http.ServeFile` of a file name inside the
tier directory. -/
inductive RestResponse
  | httpError (status : Nat) (msg : GoStr)
  | playlistBody (lines : List GoStr)
  | serveFileAt (name : GoStr)
deriving DecidableEq

/-- The `segmentsToServe` constant. -/
def segmentsToServe : Nat := 5

/-- The loop's discontinuity condition for iteration `i`:
`i > 0 && currentChunk < prevChunk`, with `currentChunk = seq % chunkCount`
and `prevChunk = (seq-1) % chunkCount` for `seq = now + i` (Go's `%` is
truncated division remainder, `Int.tmod`). -/
def discFlag (chunkCount now : Int) (i : Nat) : Bool :=
  decide (0 < i) &&
    decide (Int.tmod (now + i) chunkCount < Int.tmod (now + i - 1) chunkCount)

/-- One loop iteration's written lines: the optional discontinuity
marker, the `#EXTINF` line, and the segment URI line. -/
def segBlock (disc : Bool) (uri : GoStr) : List GoStr :=
  (if disc then [txt "#EXT-X-DISCONTINUITY"] else []) ++
    [txt "#EXTINF:1.000000,", uri]

/-- The virtual segment URI `media.<seq>.mp4` for `seq = now + i`. -/
def mediaUri (now : Int) (i : Nat) : GoStr :=
  txt "media." ++ intStr (now + i) ++ txt ".mp4"

/-- `generateMediaPlaylist(chunkCount)`: the playlist header followed by
the five-segment window. -/
def generateMediaPlaylist (chunkCount now : Int) : List GoStr :=
  [txt "#EXTM3U", txt "#EXT-X-VERSION:7", txt "#EXT-X-TARGETDURATION:1",
   txt "#EXT-X-MEDIA-SEQUENCE:" ++ intStr now,
   txt "#EXT-X-MAP:URI=\"init.mp4\""] ++
  (List.range segmentsToServe).flatMap
    (fun i => segBlock (discFlag chunkCount now i) (mediaUri now i))

/-- Media-playlist branch of `ServeHLS` (route
`/<clip>/<tier>/media.m3u8`), lines 43–72 of the handler. -/
def serveMediaPlaylist (resolutionOk : Bool) (glob : Option (List GoStr))
    (now : Int) : RestResponse :=
  if !resolutionOk then .httpError 404 (txt "Resolution not found")
  else
    match glob with
    | none => .httpError 500 (txt "Error reading chunks")
    | some ms =>
      let chunkCount : Int := (ms.length : Int) - 1
      if chunkCount < 1 then .httpError 404 (txt "No chunks found")
      else .playlistBody (generateMediaPlaylist chunkCount now)

/-- Segment branch of `ServeHLS` (route `/<clip>/<tier>/media.<seq>.mp4`),
lines 84–125 of the handler; `filename` is the base name of the request
path. -/
def serveSegment (resolutionOk : Bool) (glob : Option (List GoStr))
    (filename : GoStr) : RestResponse :=
  if !resolutionOk then .httpError 404 (txt "Resolution not found")
  else
    match glob with
    | none => .httpError 500 (txt "Error reading chunks")
    | some ms =>
      let chunkCount : Int := (ms.length : Int) - 1
      if chunkCount < 1 then .httpError 404 (txt "No chunks found")
      else
        let hlsSeqStr := trimSuffix (trimPrefix filename (txt "media.")) (txt ".mp4")
        match goParseInt64 hlsSeqStr with
        | none => .httpError 404 (txt "Invalid sequence number")
        | some hlsSeq =>
          let chunkId := Int.tmod hlsSeq chunkCount
          .serveFileAt (txt "chunk_" ++ fmt03d chunkId ++ txt ".mp4")

/-- Scanner over an emitted playlist: pairs every segment URI (the line
following an `#EXTINF` line) with whether a discontinuity marker stands
immediately before that `#EXTINF` line.  `pending` carries the flag
between the `#EXTINF` line and its URI line; `lastDisc` records whether
the previous line was the marker. -/
def scanSegments (pending : Option Bool) (lastDisc : Bool) :
    List GoStr → List (GoStr × Bool)
  | [] => []
  | l :: rest =>
    match pending with
    | some f => (l, f) :: scanSegments none (decide (l = txt "#EXT-X-DISCONTINUITY")) rest
    | none =>
      scanSegments (if l = txt "#EXTINF:1.000000," then some lastDisc else none)
        (decide (l = txt "#EXT-X-DISCONTINUITY")) rest

/-- The segments of a playlist with their immediately-preceding-marker
flags. -/
def segmentFlags (lines : List GoStr) : List (GoStr × Bool) :=
  scanSegments none false lines

/-- The five-segment window as claimed: a marker before exactly the
segments whose mapped physical index `seq mod N` is below the mapped
index of `seq - 1` (mathematical mod on the claim side). -/
def c2ClaimWindow (chunkCount now : Int) : List (GoStr × Bool) :=
  (List.range segmentsToServe).map fun i =>
    (mediaUri now i, decide ((now + i) % chunkCount < (now + i - 1) % chunkCount))

/-- The five-segment window as the code emits it: as `c2ClaimWindow`, but
never a marker before the window's first segment. -/
def c2AmendedWindow (chunkCount now : Int) : List (GoStr × Bool) :=
  (List.range segmentsToServe).map fun i =>
    (mediaUri now i,
      decide (0 < i ∧ (now + i) % chunkCount < (now + i - 1) % chunkCount))

/-!
## HLS playlist lemmas
-/

/-- Strings with different prefixes differ. -/
theorem ne_of_take_ne (x y : GoStr) (n : Nat) (h : x.take n ≠ y.take n) :
    x ≠ y := fun he => h (he ▸ rfl)

/-- A segment URI line is not the `#EXTINF` line. -/
theorem mediaUri_ne_extinf (now : Int) (i : Nat) :
    mediaUri now i ≠ txt "#EXTINF:1.000000," := by
  apply ne_of_take_ne _ _ 1
  rw [mediaUri, List.append_assoc, List.take_append_of_le_length (by decide)]
  decide

/-- A segment URI line is not the discontinuity marker. -/
theorem mediaUri_ne_disc (now : Int) (i : Nat) :
    mediaUri now i ≠ txt "#EXT-X-DISCONTINUITY" := by
  apply ne_of_take_ne _ _ 1
  rw [mediaUri, List.append_assoc, List.take_append_of_le_length (by decide)]
  decide

/-- The media-sequence header line is not the `#EXTINF` line. -/
theorem seqLine_ne_extinf (now : Int) :
    txt "#EXT-X-MEDIA-SEQUENCE:" ++ intStr now ≠ txt "#EXTINF:1.000000," := by
  apply ne_of_take_ne _ _ 5
  rw [List.take_append_of_le_length (by decide)]
  decide

/-- The media-sequence header line is not the discontinuity marker. -/
theorem seqLine_ne_disc (now : Int) :
    txt "#EXT-X-MEDIA-SEQUENCE:" ++ intStr now ≠ txt "#EXT-X-DISCONTINUITY" := by
  apply ne_of_take_ne _ _ 8
  rw [List.take_append_of_le_length (by decide)]
  decide

/-- The scanner ignores a line that is neither `#EXTINF` nor the
marker. -/
theorem scanSegments_skip (l : GoStr) (rest : List GoStr)
    (h1 : l ≠ txt "#EXTINF:1.000000,") (h2 : l ≠ txt "#EXT-X-DISCONTINUITY") :
    scanSegments none false (l :: rest) = scanSegments none false rest := by
  simp [scanSegments, h1, h2]

/-- The scanner turns one emitted segment block into one `(uri, flag)`
pair. -/
theorem scanSegments_block (b : Bool) (uri : GoStr) (rest : List GoStr)
    (_h1 : uri ≠ txt "#EXTINF:1.000000,") (h2 : uri ≠ txt "#EXT-X-DISCONTINUITY") :
    scanSegments none false (segBlock b uri ++ rest)
      = (uri, b) :: scanSegments none false rest := by
  cases b <;> simp +decide [segBlock, scanSegments, _h1, h2]

/-- Discontinuity-marker count of one emitted segment block. -/
theorem count_segBlock (b : Bool) (uri : GoStr) (rest : List GoStr)
    (h2 : uri ≠ txt "#EXT-X-DISCONTINUITY") :
    (segBlock b uri ++ rest).count (txt "#EXT-X-DISCONTINUITY")
      = (if b then 1 else 0) + rest.count (txt "#EXT-X-DISCONTINUITY") := by
  cases b <;> simp +decide [segBlock, List.count_cons, beq_eq_false_iff_ne.mpr h2]
  omega

/-- The loop's discontinuity condition coincides with the mathematical
`seq mod N` comparison on every in-range input (`N ≥ 1`, `now ≥ 0`, and
never for the window's first segment). -/
theorem discFlag_eq (N now : Int) (hN : 1 ≤ N) (hnow : 0 ≤ now) (i : Nat) :
    discFlag N now i
      = decide (0 < i ∧ (now + i) % N < (now + i - 1) % N) := by
  rcases Nat.eq_zero_or_pos i with hi | hi
  · subst hi
    simp [discFlag]
  · rw [discFlag, Int.tmod_eq_emod (by omega) (by omega),
      Int.tmod_eq_emod (by omega) (by omega), Bool.decide_and]

/-- C2, counterexample.  At `now = 5` over a rendition with usable chunk
count `N = 5`, the mapped index of the window's first segment
(`5 mod 5 = 0`) is below the mapped index of `seq - 1` (`4 mod 5 = 4`),
so the claim demands a marker before the first segment; the emitted
playlist carries no marker there (the loop guard `i > 0` skips the first
iteration), so the claimed marker placement is wrong. -/
theorem claim_C2_counterexample :
    segmentFlags (generateMediaPlaylist 5 5) ≠ c2ClaimWindow 5 5 := by decide

/-- C2, amended.  For every playlist generated at time `now ≥ 0` over a
usable chunk count `N ≥ 1`: the five emitted segments carry a
discontinuity marker immediately before exactly those segments that are
not the window's first **and** whose mapped physical index `seq mod N` is
less than the mapped index of `seq - 1`; and the playlist contains no
discontinuity marker anywhere else (its marker count equals the number of
flagged segments). -/
theorem claim_C2_discontinuity (N now : Int) (hN : 1 ≤ N) (hnow : 0 ≤ now) :
    segmentFlags (generateMediaPlaylist N now) = c2AmendedWindow N now ∧
    (generateMediaPlaylist N now).count (txt "#EXT-X-DISCONTINUITY")
      = ((c2AmendedWindow N now).map Prod.snd).count true := by
  have hrange : List.range segmentsToServe = [0, 1, 2, 3, 4] := by decide
  have huE := mediaUri_ne_extinf now
  have huD := mediaUri_ne_disc now
  constructor
  · rw [segmentFlags, generateMediaPlaylist, c2AmendedWindow, hrange]
    simp only [List.flatMap_cons, List.flatMap_nil, List.map_cons, List.map_nil,
      List.cons_append, List.nil_append, List.append_nil]
    rw [scanSegments_skip _ _ (by decide) (by decide),
      scanSegments_skip _ _ (by decide) (by decide),
      scanSegments_skip _ _ (by decide) (by decide),
      scanSegments_skip _ _ (seqLine_ne_extinf now) (seqLine_ne_disc now),
      scanSegments_skip _ _ (by decide) (by decide),
      scanSegments_block _ _ _ (huE 0) (huD 0),
      scanSegments_block _ _ _ (huE 1) (huD 1),
      scanSegments_block _ _ _ (huE 2) (huD 2),
      scanSegments_block _ _ _ (huE 3) (huD 3)]
    have hlast : scanSegments none false (segBlock (discFlag N now 4) (mediaUri now 4))
        = [(mediaUri now 4, discFlag N now 4)] := by
      have := scanSegments_block (discFlag N now 4) (mediaUri now 4) [] (huE 4) (huD 4)
      simpa [scanSegments] using this
    rw [hlast]
    simp only [discFlag_eq N now hN hnow]
  · rw [generateMediaPlaylist, c2AmendedWindow, hrange]
    simp only [List.flatMap_cons, List.flatMap_nil, List.map_cons, List.map_nil,
      List.cons_append, List.nil_append, List.append_nil]
    have hcB : ∀ i, (segBlock (discFlag N now i) (mediaUri now i)).count
        (txt "#EXT-X-DISCONTINUITY") = if discFlag N now i then 1 else 0 := by
      intro i
      have := count_segBlock (discFlag N now i) (mediaUri now i) [] (huD i)
      simpa using this
    have hseq : ((txt "#EXT-X-MEDIA-SEQUENCE:" ++ intStr now)
        == txt "#EXT-X-DISCONTINUITY") = false :=
      beq_eq_false_iff_ne.mpr (seqLine_ne_disc now)
    have e1 : ((txt "#EXTM3U") == txt "#EXT-X-DISCONTINUITY") = false := by decide
    have e2 : ((txt "#EXT-X-VERSION:7") == txt "#EXT-X-DISCONTINUITY") = false := by
      decide
    have e3 : ((txt "#EXT-X-TARGETDURATION:1") == txt "#EXT-X-DISCONTINUITY")
        = false := by decide
    have e4 : ((txt "#EXT-X-MAP:URI=\"init.mp4\"") == txt "#EXT-X-DISCONTINUITY")
        = false := by decide
    simp only [List.count_append, List.count_cons, List.count_nil, hcB, hseq,
      e1, e2, e3, e4, Bool.false_eq_true, if_false]
    simp only [discFlag_eq N now hN hnow, beq_true]
    omega

/-- C2 witness: the amended placement at `N = 5`, `now = 5` (the wrap
falls on the window's first segment, so no marker is emitted). -/
theorem claim_C2_discontinuity_witness :
    segmentFlags (generateMediaPlaylist 5 5) = c2AmendedWindow 5 5 ∧
    (generateMediaPlaylist 5 5).count (txt "#EXT-X-DISCONTINUITY")
      = ((c2AmendedWindow 5 5).map Prod.snd).count true :=
  claim_C2_discontinuity 5 5 (by decide) (by decide)

/-!
## Playlist guard and segment mapping
-/

/-- C5.  `servePlaylist` empty-rendition guard: for a media-playlist
request over an existing tier directory the engine counts the physical
chunk files, uses the usable chunk count `N = count - 1`, answers
`404 Not Found` whenever `N < 1`, and only otherwise returns the
generated playlist over `N`. -/
theorem claim_C5_playlistGuard (ms : List GoStr) (now : Int) :
    serveMediaPlaylist true (some ms) now
      = if (ms.length : Int) - 1 < 1 then .httpError 404 (txt "No chunks found")
        else .playlistBody (generateMediaPlaylist ((ms.length : Int) - 1) now) := by
  simp [serveMediaPlaylist]

/-- C5 witness: one physical chunk (usable count 0) is refused, two are
served. -/
theorem claim_C5_playlistGuard_witness :
    serveMediaPlaylist true (some [txt "chunk_000.mp4"]) 99
        = .httpError 404 (txt "No chunks found") ∧
    serveMediaPlaylist true (some [txt "chunk_000.mp4", txt "chunk_001.mp4"]) 99
        = .playlistBody (generateMediaPlaylist 1 99) := by
  constructor
  · rw [claim_C5_playlistGuard [txt "chunk_000.mp4"] 99]
    decide
  · rw [claim_C5_playlistGuard [txt "chunk_000.mp4", txt "chunk_001.mp4"] 99]
    decide

/-- `goParseInt64` inverts `%d` formatting of an in-range non-negative
value. -/
theorem goParseInt64_intStr_nonneg (i : Int) (h0 : 0 ≤ i) (h1 : i < 2 ^ 63) :
    goParseInt64 (intStr i) = some i := by
  simp only [goParseInt64, goAtoi_intStr i h0, if_pos (⟨by omega, h1⟩ :
    -(2 : Int) ^ 63 ≤ i ∧ i < 2 ^ 63)]

/-- `goAtoi` inverts `%d` formatting of a negative value. -/
theorem goAtoi_intStr_neg (i : Int) (h : i < 0) : goAtoi (intStr i) = some i := by
  rw [intStr, if_pos h, goAtoi, if_neg (by omega), if_pos rfl,
    parseDigits_natDigits]
  simp only [Option.map_some', Option.some.injEq, Int.ofNat_eq_natCast]
  omega

/-- `goParseInt64` inverts `%d` formatting of an in-range negative
value. -/
theorem goParseInt64_intStr_neg (i : Int) (h : i < 0) (hlo : -(2 ^ 63) ≤ i) :
    goParseInt64 (intStr i) = some i := by
  simp only [goParseInt64, goAtoi_intStr_neg i h, if_pos (⟨by omega, by omega⟩ :
    -(2 : Int) ^ 63 ≤ i ∧ i < 2 ^ 63)]

/-- Sequence-string extraction from the `media.<seq>.mp4` base name. -/
theorem extract_seq (s : GoStr) :
    trimSuffix (trimPrefix (txt "media." ++ s ++ txt ".mp4") (txt "media."))
      (txt ".mp4") = s := by
  rw [List.append_assoc, trimPrefix_append, trimSuffix_append]

/-- C6.  Modular segment mapping: a request `media.<seq>.mp4` with
non-negative 64-bit `seq` against a tier directory with `count ≥ 2`
physical chunks serves the bytes of `chunk_<NNN>.mp4` where
`NNN = seq mod (count - 1)` zero-padded to three digits; a missing tier
directory, or `count - 1 < 1`, yields `404`. -/
theorem claim_C6_segmentMapping (ms : List GoStr) (seq : Nat)
    (hseq : seq < 2 ^ 63) :
    (∀ glob, serveSegment false glob (txt "media." ++ intStr seq ++ txt ".mp4")
        = .httpError 404 (txt "Resolution not found")) ∧
    serveSegment true (some ms) (txt "media." ++ intStr seq ++ txt ".mp4")
      = (if ms.length < 2 then .httpError 404 (txt "No chunks found")
         else .serveFileAt (txt "chunk_" ++ pad0 3 (natDigits (seq % (ms.length - 1)))
           ++ txt ".mp4")) := by
  constructor
  · intro glob
    rcases glob with _ | ms' <;> simp [serveSegment]
  · have hp : goParseInt64 (intStr (seq : Int)) = some (seq : Int) :=
      goParseInt64_intStr_nonneg (seq : Int) (by omega) (by exact_mod_cast hseq)
    by_cases hlen : ms.length < 2
    · rw [if_pos hlen]
      simp only [serveSegment, Bool.not_true, Bool.false_eq_true, if_false]
      rw [if_pos (by omega)]
    · rw [if_neg hlen]
      have hdiv : ((ms.length : Int) - 1) = ((ms.length - 1 : Nat) : Int) := by
        omega
      simp only [serveSegment, Bool.not_true, Bool.false_eq_true, if_false,
        extract_seq, hp]
      rw [if_neg (by omega), hdiv, ← Int.ofNat_tmod, fmt03d, if_neg (by omega),
        Int.toNat_natCast]

/-- C6 witness: six physical chunks, `seq = 7`, served chunk
`7 mod 5 = 2`. -/
theorem claim_C6_segmentMapping_witness :
    serveSegment true (some [txt "chunk_000.mp4", txt "chunk_001.mp4",
        txt "chunk_002.mp4", txt "chunk_003.mp4", txt "chunk_004.mp4",
        txt "chunk_005.mp4"]) (txt "media." ++ intStr ((7 : Nat) : Int) ++ txt ".mp4")
      = .serveFileAt (txt "chunk_002.mp4") := by
  have h := (claim_C6_segmentMapping [txt "chunk_000.mp4", txt "chunk_001.mp4",
    txt "chunk_002.mp4", txt "chunk_003.mp4", txt "chunk_004.mp4",
    txt "chunk_005.mp4"] 7 (by decide)).2
  rw [h]
  decide

/-- Go's truncated remainder of a non-positive dividend is
non-positive. -/
theorem tmod_nonpos (a b : Int) (h : a ≤ 0) : Int.tmod a b ≤ 0 := by
  rcases a with m | m
  · have hm : m = 0 := by
      have h2 : (m : Int) ≤ 0 := h
      exact_mod_cast le_antisymm h2 (by exact_mod_cast Nat.zero_le m)
    subst hm
    simp
  · rcases b with n | n <;>
      (simp only [Int.tmod]
       refine neg_nonpos.mpr ?_
       exact Int.ofNat_nonneg _)

/-- A three-digit zero-padded rendering of a natural number starts with
an ASCII digit. -/
theorem pad0_natDigits_head (k : Nat) :
    ∃ c cs, pad0 3 (natDigits k) = c :: cs ∧ 48 ≤ c ∧ c ≤ 57 := by
  rw [pad0]
  rcases h3 : 3 - (natDigits k).length with _ | m
  · obtain ⟨c, cs, hcons, hdig⟩ := natDigits_head k
    refine ⟨c, cs, ?_, ?_⟩
    · simp [h3, hcons]
    · simpa [isDigitCp, decide_eq_true_eq] using hdig
  · exact ⟨48, List.replicate m 48 ++ natDigits k, by simp [List.replicate_succ],
      by omega, by omega⟩

/-- C10, counterexample.  A negative sequence number divisible by the
usable chunk count aliases a real chunk: with six physical chunks
(`N = 5`), the request `media.-5.mp4` maps to `-5 % 5 = 0` and serves
`chunk_000.mp4` — a name inside the zero-padded physical namespace and an
existing chunk file — so the claimed "can never alias an existing
physical chunk" is false. -/
theorem claim_C10_counterexample :
    serveSegment true (some [txt "chunk_000.mp4", txt "chunk_001.mp4",
        txt "chunk_002.mp4", txt "chunk_003.mp4", txt "chunk_004.mp4",
        txt "chunk_005.mp4"]) (txt "media.-5.mp4")
      = .serveFileAt (txt "chunk_000.mp4") ∧
    txt "chunk_000.mp4" ∈ [txt "chunk_000.mp4", txt "chunk_001.mp4",
        txt "chunk_002.mp4", txt "chunk_003.mp4", txt "chunk_004.mp4",
        txt "chunk_005.mp4"] := by decide

/-- C10, amended.  `serveSegment` accepts any signed 64-bit sequence
number; for a negative `seq` over a usable chunk count `N ≥ 1` the
computed index `seq % N` (Go truncated modulo) is zero or negative, and
the served chunk name is `chunk_<%03d of that index>.mp4`.  When `N` does
not divide `seq` the index is strictly negative and the name (e.g.
`chunk_-01.mp4`) lies outside the zero-padded `chunk_<NNN>` namespace, so
it can never alias a physical chunk; when `N` divides `seq` the index is
`0` and the request serves the existing `chunk_000.mp4`. -/
theorem claim_C10_negativeSeq (ms : List GoStr) (seq : Int)
    (hneg : seq < 0) (hlen : 2 ≤ ms.length) (hlo : -(2 ^ 63) ≤ seq) :
    Int.tmod seq ((ms.length : Int) - 1) ≤ 0 ∧
    serveSegment true (some ms) (txt "media." ++ intStr seq ++ txt ".mp4")
      = .serveFileAt (txt "chunk_"
          ++ fmt03d (Int.tmod seq ((ms.length : Int) - 1)) ++ txt ".mp4") ∧
    (Int.tmod seq ((ms.length : Int) - 1) ≠ 0 →
      ∀ k : Nat, txt "chunk_" ++ fmt03d (Int.tmod seq ((ms.length : Int) - 1))
          ++ txt ".mp4"
        ≠ txt "chunk_" ++ fmt03d ((k : Nat) : Int) ++ txt ".mp4") ∧
    (Int.tmod seq ((ms.length : Int) - 1) = 0 →
      txt "chunk_" ++ fmt03d (Int.tmod seq ((ms.length : Int) - 1)) ++ txt ".mp4"
        = txt "chunk_000.mp4") := by
  have hnp : Int.tmod seq ((ms.length : Int) - 1) ≤ 0 :=
    tmod_nonpos seq _ (by omega)
  refine ⟨hnp, ?_, ?_, ?_⟩
  · have hp : goParseInt64 (intStr seq) = some seq :=
      goParseInt64_intStr_neg seq hneg hlo
    simp only [serveSegment, Bool.not_true, Bool.false_eq_true, if_false,
      extract_seq, hp]
    rw [if_neg (by omega)]
  · intro hne k
    have hcid : Int.tmod seq ((ms.length : Int) - 1) < 0 := by omega
    intro he
    have he2 : fmt03d (Int.tmod seq ((ms.length : Int) - 1)) ++ txt ".mp4"
        = fmt03d ((k : Nat) : Int) ++ txt ".mp4" := by
      have := congrArg (List.drop (txt "chunk_").length) he
      rwa [List.append_assoc, List.append_assoc, List.drop_left,
        List.drop_left] at this
    have he3 : fmt03d (Int.tmod seq ((ms.length : Int) - 1))
        = fmt03d ((k : Nat) : Int) := List.append_cancel_right he2
    obtain ⟨c, cs, hcons, hc1, hc2⟩ := pad0_natDigits_head k
    rw [fmt03d, if_pos hcid, fmt03d, if_neg (by omega), Int.toNat_natCast,
      hcons] at he3
    have := (List.cons.injEq _ _ _ _).mp he3
    omega
  · intro hz
    rw [hz]
    decide

/-- C10 witness: `seq = -7` over six physical chunks maps to index
`-7 % 5 = -2` and the out-of-namespace name `chunk_-02.mp4`, which
matches no zero-padded physical chunk name. -/
theorem claim_C10_negativeSeq_witness :
    serveSegment true (some [txt "chunk_000.mp4", txt "chunk_001.mp4",
        txt "chunk_002.mp4", txt "chunk_003.mp4", txt "chunk_004.mp4",
        txt "chunk_005.mp4"]) (txt "media." ++ intStr (-7) ++ txt ".mp4")
      = .serveFileAt (txt "chunk_" ++ fmt03d (Int.tmod (-7) 5) ++ txt ".mp4") ∧
    txt "chunk_" ++ fmt03d (Int.tmod (-7) 5) ++ txt ".mp4"
      ≠ txt "chunk_" ++ fmt03d ((0 : Nat) : Int) ++ txt ".mp4" := by
  have h := claim_C10_negativeSeq [txt "chunk_000.mp4", txt "chunk_001.mp4",
    txt "chunk_002.mp4", txt "chunk_003.mp4", txt "chunk_004.mp4",
    txt "chunk_005.mp4"] (-7) (by decide) (by decide) (by decide)
  exact ⟨h.2.1, h.2.2.1 (by decide) 0⟩

/-!
## Transcode orchestrator (`internal/service/video.go`, `VideoService.Transcode`)

Embedded from the revision that carries the cache size-check (the one
whose `Transcode` takes a resolved `VideoSpec`).  The two single-buffered
result/error channels — exactly one receives exactly one value, then both
are closed — are modeled by the single `delivered` value; every
`os.Remove` call performed during the invocation is recorded in
`removed`; `encoderInvoked`/`encoderArgs` record whether and how the
ffmpeg subprocess was started.
-/

/-- Outcome of the external encoder subprocess: normal exit, or a
non-zero exit carrying the Go error text and the captured stderr. -/
inductive EncoderRun
  | success
  | failure (errText stderr : GoStr)
deriving DecidableEq

/-- Observable effects of one `Transcode` call. -/
structure TranscodeResult where
  delivered : Except GoStr GoStr
  removed : List GoStr
  encoderInvoked : Bool
  encoderArgs : List GoStr
deriving DecidableEq

/-- The scale-then-center-crop video filter argument. -/
def filterArg (w h : Int) : GoStr :=
  txt "scale=" ++ intStr w ++ txt ":" ++ intStr h ++
    txt ":force_original_aspect_ratio=increase,crop=" ++ intStr w ++ txt ":" ++
    intStr h

/-- The always-present leading arguments: input, duration trim, and the
scale-then-crop filter. -/
def baseArgs (spec : VideoSpec) (inputPath : GoStr) : List GoStr :=
  [txt "-i", inputPath, txt "-t", intStr spec.duration,
   txt "-vf", filterArg spec.width spec.height]

/-- The video track arguments: encoder name, frame rate and the
encoder's tuning table, or `-vn` when the mapped encoder name is
`"none"`. -/
def videoArgsOf (spec : VideoSpec) : List GoStr :=
  let videoCodec := mapGet VideoCodecNameMap spec.codec
  if videoCodec ≠ txt "none" then
    [txt "-c:v", videoCodec, txt "-r", intStr spec.fps] ++
      ((VideoCodecArgs.lookup videoCodec).getD [])
  else [txt "-vn"]

/-- The bitrate arguments, dispatched on the token's mode suffix
(independently of the video codec, exactly as in the source). -/
def bitrateArgsOf (spec : VideoSpec) : List GoStr :=
  if hasSuffix spec.bitrate (txt "crf") then
    [txt "-crf", trimSuffix spec.bitrate (txt "crf")]
  else if hasSuffix spec.bitrate (txt "cbr") then
    [txt "-b:v", trimSuffix spec.bitrate (txt "cbr") ++ txt "k",
     txt "-maxrate", trimSuffix spec.bitrate (txt "cbr") ++ txt "k",
     txt "-bufsize", trimSuffix spec.bitrate (txt "cbr") ++ txt "k"]
  else if hasSuffix spec.bitrate (txt "vbr") then
    [txt "-b:v", trimSuffix spec.bitrate (txt "vbr") ++ txt "k"]
  else []

/-- The audio track arguments: encoder name, audio bitrate, forced
2-channel downmix, or `-an` when the mapped encoder name is `"none"`. -/
def audioArgsOf (spec : VideoSpec) : List GoStr :=
  let audioCodec := mapGet AudioCodecNameMap spec.audioCodec
  if audioCodec ≠ txt "none" then
    [txt "-c:a", audioCodec, txt "-b:a", intStr spec.audioBitrate ++ txt "k",
     txt "-ac", txt "2"]
  else [txt "-an"]

/-- The ffmpeg argument list built inside the encode goroutine, up to but
not including the final output path, in source append order. -/
def buildArgs (spec : VideoSpec) (inputPath : GoStr) : List GoStr :=
  baseArgs spec inputPath ++ videoArgsOf spec ++ bitrateArgsOf spec ++
    audioArgsOf spec

/-- The encode goroutine: build the argument list, run the encoder,
deliver the wrapped error (no cleanup) or the output path.  `pre` is the
list of paths already removed before the goroutine started. -/
def transcodeRun (spec : VideoSpec) (inputPath fullOutputPath : GoStr)
    (pre : List GoStr) (enc : EncoderRun) : TranscodeResult :=
  let args := buildArgs spec inputPath ++ [fullOutputPath]
  match enc with
  | .success => ⟨.ok fullOutputPath, pre, true, args⟩
  | .failure e st =>
    ⟨.error (txt "ffmpeg failed: " ++ e ++ txt "\nOutput: " ++ st), pre, true, args⟩

/-- `VideoService.Transcode` over the abstracted filesystem and encoder:
`existing` is the `os.Stat` result at `outputPath/<canonical filename>`
(`some size` when a file is already there), `enc` the encoder outcome.
An existing file above the 1024-byte sanity threshold is delivered
without invoking the encoder; an undersized one is removed and the
encode proceeds. -/
def Transcode (spec : VideoSpec) (inputPath outputPath : GoStr)
    (existing : Option Int) (enc : EncoderRun) : TranscodeResult :=
  let filename := GenerateFilename spec
  let fullOutputPath := pathJoin outputPath filename
  match existing with
  | some size =>
    if size > 1024 then ⟨.ok fullOutputPath, [], false, []⟩
    else transcodeRun spec inputPath fullOutputPath [fullOutputPath] enc
  | none => transcodeRun spec inputPath fullOutputPath [] enc

/-- C3.  Cache corruption self-heal: when a file already exists at the
canonical output path, `Transcode` delivers that path as success without
invoking the encoder **iff** its size exceeds the 1024-byte sanity
threshold; an undersized file is deleted and the encoder runs, and on
encoder success the freshly produced artifact's path (not the corrupt
file) is delivered. -/
theorem claim_C3_cacheSelfHeal (spec : VideoSpec) (inP outP : GoStr)
    (size : Int) (enc : EncoderRun) :
    ((Transcode spec inP outP (some size) enc).delivered
        = .ok (pathJoin outP (GenerateFilename spec)) ∧
      (Transcode spec inP outP (some size) enc).encoderInvoked = false
      ↔ 1024 < size) ∧
    (size ≤ 1024 →
      (Transcode spec inP outP (some size) enc).removed
          = [pathJoin outP (GenerateFilename spec)] ∧
      (Transcode spec inP outP (some size) enc).encoderInvoked = true ∧
      (enc = .success →
        (Transcode spec inP outP (some size) enc).delivered
          = .ok (pathJoin outP (GenerateFilename spec)))) := by
  by_cases h : (1024 : Int) < size
  · constructor
    · rw [Transcode]
      simp [if_pos h]
      omega
    · omega
  · have h' : ¬(size > 1024) := h
    constructor
    · rw [Transcode]
      simp only [if_neg h']
      cases enc <;> simp [transcodeRun] <;> omega
    · intro _
      rw [Transcode]
      simp only [if_neg h']
      cases enc <;> simp [transcodeRun]

/-- C3 witness: an undersized 100-byte artifact is removed and
regenerated; a 4096-byte artifact is served without encoding. -/
theorem claim_C3_cacheSelfHeal_witness :
    ((Transcode DefaultVideoSpec (txt "in.mp4") (txt "tmp") (some 4096)
          .success).delivered
        = .ok (pathJoin (txt "tmp") (GenerateFilename DefaultVideoSpec)) ∧
      (Transcode DefaultVideoSpec (txt "in.mp4") (txt "tmp") (some 4096)
          .success).encoderInvoked = false) ∧
    (Transcode DefaultVideoSpec (txt "in.mp4") (txt "tmp") (some 100)
        .success).removed
      = [pathJoin (txt "tmp") (GenerateFilename DefaultVideoSpec)] := by
  constructor
  · exact (claim_C3_cacheSelfHeal DefaultVideoSpec (txt "in.mp4") (txt "tmp")
      4096 .success).1.mpr (by omega)
  · exact ((claim_C3_cacheSelfHeal DefaultVideoSpec (txt "in.mp4") (txt "tmp")
      100 .success).2 (by omega)).1

/-- C4, counterexample.  On a non-zero encoder exit `Transcode` delivers
the wrapped diagnostic error, but it does **not** delete the partial
output file at the target path: the error branch performs no `os.Remove`
(here: no pre-existing file, encoder fails, and the set of removed paths
is empty), contradicting the claimed cleanup. -/
theorem claim_C4_counterexample :
    (Transcode DefaultVideoSpec (txt "in.mp4") (txt "tmp") none
        (.failure (txt "exit status 1") (txt "boom"))).delivered
      = .error (txt "ffmpeg failed: " ++ txt "exit status 1" ++
          txt "\nOutput: " ++ txt "boom") ∧
    (Transcode DefaultVideoSpec (txt "in.mp4") (txt "tmp") none
        (.failure (txt "exit status 1") (txt "boom"))).removed = [] := by decide

/-- C4, amended.  On every non-zero encoder exit, `Transcode` delivers
exactly one wrapped error that carries the encoder's diagnostic output
(the captured stderr is a contiguous part of the delivered message); the
partial output file at the target path is **not** deleted on this error
path (cleanup is deferred to the undersized-artifact check of a later
invocation). -/
theorem claim_C4_errorDelivery (spec : VideoSpec) (inP outP e st : GoStr) :
    (Transcode spec inP outP none (.failure e st)).delivered
        = .error (txt "ffmpeg failed: " ++ e ++ txt "\nOutput: " ++ st) ∧
    st <:+: (txt "ffmpeg failed: " ++ e ++ txt "\nOutput: " ++ st) ∧
    (Transcode spec inP outP none (.failure e st)).removed = [] := by
  refine ⟨rfl, ⟨txt "ffmpeg failed: " ++ e ++ txt "\nOutput: ", [], by simp⟩, rfl⟩

/-!
## Bitrate-mode dispatch
-/

/-- A decimal rendering never starts with `-` (45). -/
theorem natDigits_ne_dash (n : Nat) (rest : GoStr) : natDigits n ≠ 45 :: rest := by
  obtain ⟨c, cs, hcons, hdig⟩ := natDigits_head n
  rw [hcons]
  intro he
  have := (List.cons.injEq _ _ _ _).mp he
  simp [isDigitCp, decide_eq_true_eq] at hdig
  omega

/-- A decimal rendering with any suffix never starts with `-` (45). -/
theorem natDigits_append_ne_dash (n : Nat) (suf rest : GoStr) :
    natDigits n ++ suf ≠ 45 :: rest := by
  obtain ⟨c, cs, hcons, hdig⟩ := natDigits_head n
  rw [hcons]
  intro he
  have := (List.cons.injEq _ _ _ _).mp (by simpa using he)
  simp [isDigitCp, decide_eq_true_eq] at hdig
  omega

/-- The filter argument starts with `s`, never with `-`. -/
theorem filterArg_ne_dash (w h : Int) (rest : GoStr) :
    filterArg w h ≠ 45 :: rest := by
  rw [filterArg, show txt "scale=" = 115 :: txt "cale=" from by decide]
  simp only [List.cons_append, List.append_assoc]
  intro he
  have := (List.cons.injEq _ _ _ _).mp he
  omega

/-- A joined path contains `/` (47) and thus differs from any string
without it. -/
theorem pathJoin_ne (a b f : GoStr) (hf : (47 : Nat) ∉ f) : pathJoin a b ≠ f := by
  intro he
  exact hf (he ▸ (by simp [pathJoin] : (47 : Nat) ∈ pathJoin a b))

/-- None of the bitrate flags occurs in the base arguments (given the
input path is none of them and the duration is a plain number). -/
theorem flag_not_in_base (spec : VideoSpec) (inP f : GoStr)
    (hf : f ∈ [txt "-crf", txt "-b:v", txt "-maxrate", txt "-bufsize"])
    (hin : inP ≠ f) (hdur : 0 ≤ spec.duration) :
    f ∉ baseArgs spec inP := by
  have hf' : f = txt "-crf" ∨ f = txt "-b:v" ∨ f = txt "-maxrate" ∨
      f = txt "-bufsize" := by simpa using hf
  rw [baseArgs, intStr_nonneg spec.duration hdur]
  rcases hf' with rfl | rfl | rfl | rfl <;>
    (simp only [List.mem_cons, List.not_mem_nil, or_false, not_or]
     refine ⟨by decide, fun he => hin he.symm, by decide, ?_, by decide, ?_⟩) <;>
    first
      | exact fun he => natDigits_ne_dash _ _ he.symm
      | exact fun he => filterArg_ne_dash _ _ _ he.symm

/-- None of the bitrate flags occurs in the video-track arguments of a
spec with a valid codec. -/
theorem flag_not_in_video (spec : VideoSpec) (f : GoStr)
    (hf : f ∈ [txt "-crf", txt "-b:v", txt "-maxrate", txt "-bufsize"])
    (hcodec : spec.codec ∈ ValidVideoCodecs) (hfps : 0 ≤ spec.fps) :
    f ∉ videoArgsOf spec := by
  have hf' : f = txt "-crf" ∨ f = txt "-b:v" ∨ f = txt "-maxrate" ∨
      f = txt "-bufsize" := by simpa using hf
  have hc : spec.codec = txt "av1" ∨ spec.codec = txt "h264" ∨
      spec.codec = txt "h265" ∨ spec.codec = txt "vp9" ∨
      spec.codec = txt "novideo" := by
    simpa [ValidVideoCodecs, VideoCodecNameMap] using hcodec
  rcases hf' with rfl | rfl | rfl | rfl <;>
    rcases hc with h | h | h | h | h <;>
      simp +decide [videoArgsOf, h, mapGet, VideoCodecNameMap, VideoCodecArgs,
        intStr_nonneg spec.fps hfps] <;>
      exact fun he => natDigits_ne_dash _ _ he.symm

/-- None of the bitrate flags occurs in the audio-track arguments of a
spec with a valid audio codec. -/
theorem flag_not_in_audio (spec : VideoSpec) (f : GoStr)
    (hf : f ∈ [txt "-crf", txt "-b:v", txt "-maxrate", txt "-bufsize"])
    (haud : spec.audioCodec ∈ ValidAudioCodecs) (hab : 0 ≤ spec.audioBitrate) :
    f ∉ audioArgsOf spec := by
  have hf' : f = txt "-crf" ∨ f = txt "-b:v" ∨ f = txt "-maxrate" ∨
      f = txt "-bufsize" := by simpa using hf
  have hc : spec.audioCodec = txt "aac" ∨ spec.audioCodec = txt "opus" ∨
      spec.audioCodec = txt "vorbis" ∨ spec.audioCodec = txt "noaudio" := by
    simpa [ValidAudioCodecs, AudioCodecNameMap] using haud
  rcases hf' with rfl | rfl | rfl | rfl <;>
    rcases hc with h | h | h | h <;>
      simp +decide [audioArgsOf, h, mapGet, AudioCodecNameMap,
        intStr_nonneg spec.audioBitrate hab] <;>
      exact fun he => natDigits_append_ne_dash _ _ _ he.symm

/-- A non-empty digit string never starts with `-` (45). -/
theorem digits_ne_dash (dd : GoStr) (hdig : dd.all isDigitCp = true)
    (rest : GoStr) : dd ≠ 45 :: rest := by
  intro he
  have h45 : (45 : Nat) ∈ dd := by rw [he]; simp
  have := (List.all_eq_true.mp hdig) 45 h45
  simp [isDigitCp] at this

/-- A digit string with a suffix never starts with `-` (45). -/
theorem digits_append_ne_dash (dd : GoStr) (hdig : dd.all isDigitCp = true)
    (hdd : dd ≠ []) (suf rest : GoStr) : dd ++ suf ≠ 45 :: rest := by
  rcases dd with _ | ⟨c, cs⟩
  · exact absurd rfl hdd
  · intro he
    have hc := (List.all_eq_true.mp hdig) c (by simp)
    have := (List.cons.injEq _ _ _ _).mp (by simpa using he)
    simp [isDigitCp, decide_eq_true_eq] at hc
    omega

/-- The bitrate arguments for a `"<n>crf"` token. -/
theorem bitrateArgs_crf (spec : VideoSpec) (dd : GoStr)
    (hb : spec.bitrate = dd ++ txt "crf") :
    bitrateArgsOf spec = [txt "-crf", dd] := by
  rw [bitrateArgsOf, hb, if_pos (hasSuffix_append dd _), trimSuffix_append]

/-- The bitrate arguments for a `"<n>cbr"` token: target, maxrate and
buffer all from the same value. -/
theorem bitrateArgs_cbr (spec : VideoSpec) (dd : GoStr)
    (hb : spec.bitrate = dd ++ txt "cbr") :
    bitrateArgsOf spec = [txt "-b:v", dd ++ txt "k", txt "-maxrate",
      dd ++ txt "k", txt "-bufsize", dd ++ txt "k"] := by
  rw [bitrateArgsOf, hb,
    if_neg (by simp [hasSuffix_append_right dd (txt "cbr") (txt "crf")
      (by decide) (by decide)]),
    if_pos (hasSuffix_append dd _), trimSuffix_append]

/-- The bitrate arguments for a `"<n>vbr"` token: target only. -/
theorem bitrateArgs_vbr (spec : VideoSpec) (dd : GoStr)
    (hb : spec.bitrate = dd ++ txt "vbr") :
    bitrateArgsOf spec = [txt "-b:v", dd ++ txt "k"] := by
  rw [bitrateArgsOf, hb,
    if_neg (by simp [hasSuffix_append_right dd (txt "vbr") (txt "crf")
      (by decide) (by decide)]),
    if_neg (by simp [hasSuffix_append_right dd (txt "vbr") (txt "cbr")
      (by decide) (by decide)]),
    if_pos (hasSuffix_append dd _), trimSuffix_append]

/-- The encoder argument list of a fresh encode, decomposed into its four
segments plus the output path. -/
theorem encoderArgs_eq (spec : VideoSpec) (inP outP : GoStr) (enc : EncoderRun) :
    (Transcode spec inP outP none enc).encoderArgs
      = baseArgs spec inP ++ (videoArgsOf spec ++ (bitrateArgsOf spec ++
          (audioArgsOf spec ++ [pathJoin outP (GenerateFilename spec)]))) := by
  cases enc <;> simp [Transcode, transcodeRun, buildArgs]

/-- C7, counterexample.  For a resolved spec with the disabled video
codec `novideo` and bitrate token `25crf`, the built argument list drops
the video track (`-vn`) **and still** contains the `-crf` quality
argument: bitrate arguments are not omitted when video is disabled. -/
theorem claim_C7_counterexample :
    txt "-vn" ∈ (Transcode ⟨txt "bunny", 1280, 720, 20, txt "novideo", 30,
        txt "25crf", txt "aac", 128, txt "mp4"⟩ (txt "in.mp4") (txt "tmp")
        none .success).encoderArgs ∧
    txt "-crf" ∈ (Transcode ⟨txt "bunny", 1280, 720, 20, txt "novideo", 30,
        txt "25crf", txt "aac", 128, txt "mp4"⟩ (txt "in.mp4") (txt "tmp")
        none .success).encoderArgs := by decide

/-- C7, amended.  Bitrate-mode dispatch of the encoder argument list, for
a resolved spec (valid codec and audio codec, numeric fields
non-negative, input path not itself a bitrate flag): a `<n>crf` token
yields exactly one `-crf` argument (followed by the value) and no
`-b:v`/`-maxrate`/`-bufsize`; a `<n>cbr` token yields `-b:v`, `-maxrate`
and `-bufsize` (once each) all equal to the requested bitrate and no
`-crf`; a `<n>vbr` token yields only the `-b:v` target.  When the video
codec is `novideo` the video track is dropped explicitly (`-vn`), but —
unlike the original claim — the bitrate arguments above are still
emitted, the dispatch being independent of the codec. -/
theorem claim_C7_bitrateDispatch (spec : VideoSpec) (inP outP : GoStr)
    (enc : EncoderRun) (dd : GoStr) (hdd : dd ≠ [])
    (hdig : dd.all isDigitCp = true)
    (hin : inP ∉ [txt "-crf", txt "-b:v", txt "-maxrate", txt "-bufsize"])
    (hcodec : spec.codec ∈ ValidVideoCodecs)
    (haud : spec.audioCodec ∈ ValidAudioCodecs)
    (hdur : 0 ≤ spec.duration) (hfps : 0 ≤ spec.fps)
    (hab : 0 ≤ spec.audioBitrate) :
    (spec.bitrate = dd ++ txt "crf" →
      ((Transcode spec inP outP none enc).encoderArgs).count (txt "-crf") = 1 ∧
      ((Transcode spec inP outP none enc).encoderArgs).count (txt "-b:v") = 0 ∧
      ((Transcode spec inP outP none enc).encoderArgs).count (txt "-maxrate") = 0 ∧
      ((Transcode spec inP outP none enc).encoderArgs).count (txt "-bufsize") = 0 ∧
      [txt "-crf", dd] <:+: (Transcode spec inP outP none enc).encoderArgs) ∧
    (spec.bitrate = dd ++ txt "cbr" →
      ((Transcode spec inP outP none enc).encoderArgs).count (txt "-crf") = 0 ∧
      ((Transcode spec inP outP none enc).encoderArgs).count (txt "-b:v") = 1 ∧
      ((Transcode spec inP outP none enc).encoderArgs).count (txt "-maxrate") = 1 ∧
      ((Transcode spec inP outP none enc).encoderArgs).count (txt "-bufsize") = 1 ∧
      [txt "-b:v", dd ++ txt "k", txt "-maxrate", dd ++ txt "k", txt "-bufsize",
        dd ++ txt "k"] <:+: (Transcode spec inP outP none enc).encoderArgs) ∧
    (spec.bitrate = dd ++ txt "vbr" →
      ((Transcode spec inP outP none enc).encoderArgs).count (txt "-crf") = 0 ∧
      ((Transcode spec inP outP none enc).encoderArgs).count (txt "-b:v") = 1 ∧
      ((Transcode spec inP outP none enc).encoderArgs).count (txt "-maxrate") = 0 ∧
      ((Transcode spec inP outP none enc).encoderArgs).count (txt "-bufsize") = 0 ∧
      [txt "-b:v", dd ++ txt "k"] <:+:
        (Transcode spec inP outP none enc).encoderArgs) ∧
    (spec.codec = txt "novideo" →
      txt "-vn" ∈ (Transcode spec inP outP none enc).encoderArgs) := by
  have hcount : ∀ f ∈ [txt "-crf", txt "-b:v", txt "-maxrate", txt "-bufsize"],
      ((Transcode spec inP outP none enc).encoderArgs).count f
        = (bitrateArgsOf spec).count f := by
    intro f hf
    have h47 : (47 : Nat) ∉ f := by
      have hf' : f = txt "-crf" ∨ f = txt "-b:v" ∨ f = txt "-maxrate" ∨
          f = txt "-bufsize" := by simpa using hf
      rcases hf' with rfl | rfl | rfl | rfl <;> decide
    have hout : f ∉ [pathJoin outP (GenerateFilename spec)] := by
      intro hm
      have he : f = pathJoin outP (GenerateFilename spec) := by simpa using hm
      exact pathJoin_ne outP _ f h47 he.symm
    rw [encoderArgs_eq]
    simp only [List.count_append]
    rw [List.count_eq_zero.mpr (flag_not_in_base spec inP f hf
        (fun he => hin (he ▸ hf)) hdur),
      List.count_eq_zero.mpr (flag_not_in_video spec f hf hcodec hfps),
      List.count_eq_zero.mpr (flag_not_in_audio spec f hf haud hab),
      List.count_eq_zero.mpr hout]
    omega
  have hddk : ∀ rest : GoStr, dd ++ txt "k" ≠ 45 :: rest :=
    digits_append_ne_dash dd hdig hdd (txt "k")
  have hc1 : (dd == txt "-crf") = false := beq_eq_false_iff_ne.mpr
    (fun he => digits_ne_dash dd hdig (txt "crf") (he.trans (by decide)))
  have hc2 : (dd == txt "-b:v") = false := beq_eq_false_iff_ne.mpr
    (fun he => digits_ne_dash dd hdig (txt "b:v") (he.trans (by decide)))
  have hc3 : (dd == txt "-maxrate") = false := beq_eq_false_iff_ne.mpr
    (fun he => digits_ne_dash dd hdig (txt "maxrate") (he.trans (by decide)))
  have hc4 : (dd == txt "-bufsize") = false := beq_eq_false_iff_ne.mpr
    (fun he => digits_ne_dash dd hdig (txt "bufsize") (he.trans (by decide)))
  have hk1 : ((dd ++ txt "k") == txt "-crf") = false := beq_eq_false_iff_ne.mpr
    (fun he => hddk (txt "crf") (he.trans (by decide)))
  have hk2 : ((dd ++ txt "k") == txt "-b:v") = false := beq_eq_false_iff_ne.mpr
    (fun he => hddk (txt "b:v") (he.trans (by decide)))
  have hk3 : ((dd ++ txt "k") == txt "-maxrate") = false := beq_eq_false_iff_ne.mpr
    (fun he => hddk (txt "maxrate") (he.trans (by decide)))
  have hk4 : ((dd ++ txt "k") == txt "-bufsize") = false := beq_eq_false_iff_ne.mpr
    (fun he => hddk (txt "bufsize") (he.trans (by decide)))
  have hinfix : ∀ rest : List GoStr, bitrateArgsOf spec = rest →
      rest <:+: (Transcode spec inP outP none enc).encoderArgs := by
    rintro rest hrest
    rw [encoderArgs_eq, ← hrest]
    exact ⟨baseArgs spec inP ++ videoArgsOf spec,
      audioArgsOf spec ++ [pathJoin outP (GenerateFilename spec)], by simp⟩
  refine ⟨?_, ?_, ?_, ?_⟩
  · intro hb
    have hbr := bitrateArgs_crf spec dd hb
    refine ⟨?_, ?_, ?_, ?_, hinfix _ hbr⟩ <;>
      (rw [hcount _ (by simp), hbr]
       simp +decide [List.count_cons, hc1, hc2, hc3, hc4])
  · intro hb
    have hbr := bitrateArgs_cbr spec dd hb
    refine ⟨?_, ?_, ?_, ?_, hinfix _ hbr⟩ <;>
      (rw [hcount _ (by simp), hbr]
       simp +decide [List.count_cons, hk1, hk2, hk3, hk4])
  · intro hb
    have hbr := bitrateArgs_vbr spec dd hb
    refine ⟨?_, ?_, ?_, ?_, hinfix _ hbr⟩ <;>
      (rw [hcount _ (by simp), hbr]
       simp +decide [List.count_cons, hk1, hk2, hk3, hk4])
  · intro hnv
    rw [encoderArgs_eq]
    have hv : videoArgsOf spec = [txt "-vn"] := by
      rw [videoArgsOf, hnv]
      simp +decide [mapGet, VideoCodecNameMap]
    rw [hv]
    simp

/-- C7 witness: a resolved h264 spec with `3000cbr` gets target, maxrate
and buffer equal to the requested bitrate and no `-crf`. -/
theorem claim_C7_bitrateDispatch_witness :
    ((Transcode ⟨txt "bunny", 1280, 720, 20, txt "h264", 30, txt "3000cbr",
        txt "aac", 128, txt "mp4"⟩ (txt "in.mp4") (txt "tmp") none
        .success).encoderArgs).count (txt "-crf") = 0 ∧
    [txt "-b:v", txt "3000" ++ txt "k", txt "-maxrate", txt "3000" ++ txt "k",
      txt "-bufsize", txt "3000" ++ txt "k"] <:+:
      (Transcode ⟨txt "bunny", 1280, 720, 20, txt "h264", 30, txt "3000cbr",
        txt "aac", 128, txt "mp4"⟩ (txt "in.mp4") (txt "tmp") none
        .success).encoderArgs := by
  have h := (claim_C7_bitrateDispatch ⟨txt "bunny", 1280, 720, 20, txt "h264",
    30, txt "3000cbr", txt "aac", 128, txt "mp4"⟩ (txt "in.mp4") (txt "tmp")
    .success (txt "3000") (by decide) (by decide) (by decide) (by decide)
    (by decide) (by decide) (by decide) (by decide)).2.1 (by decide)
  exact ⟨h.1, h.2.2.2.2⟩

/-!
## Audio codec catalog and container validation
-/

/-- C8, counterexample.  The token `mp3` is not classified: parsing the
bare field `mp3` returns the all-zero specification (its audio codec
stays empty), because `mp3` is not a key of `AudioCodecNameMap` and so
not a member of the derived valid-audio-codec set. -/
theorem claim_C8_counterexample :
    ParseFilename [] (txt "mp3") = .ok emptySpec ∧
    txt "mp3" ∉ ValidAudioCodecs := by decide

/-- C8, amended.  The set of valid audio codec tokens recognized by the
spec codec is exactly `{aac, opus, vorbis, noaudio}` — `mp3` is not among
them — and a request token `mp3` is silently ignored by the classifier
(provided no source clip is literally named `mp3`). -/
theorem claim_C8_audioCodecs :
    ValidAudioCodecs = [txt "aac", txt "opus", txt "vorbis", txt "noaudio"] ∧
    ∀ (sf : List GoStr) (p : VideoSpec), txt "mp3" ∉ sf →
      classifyToken sf p (txt "mp3") = p := by
  refine ⟨by decide, ?_⟩
  intro sf p hm
  have h1 : matchResolution (txt "mp3") = none := by decide
  have h2 : List.lookup (txt "mp3") Resolutions = none := by decide
  simp +decide [classifyToken, hm, h1, h2]

/-- C8 witness: with no known source clips, the `mp3` token leaves the
specification untouched. -/
theorem claim_C8_audioCodecs_witness :
    classifyToken [] emptySpec (txt "mp3") = emptySpec :=
  claim_C8_audioCodecs.2 [] emptySpec (by decide)

/-- Token classification never writes the container field. -/
theorem classify_container (sf : List GoStr) (p : VideoSpec) (part : GoStr) :
    (classifyToken sf p part).container = p.container := by
  unfold classifyToken
  repeat' split
  all_goals rfl

/-- Folding the classifier never writes the container field. -/
theorem foldl_container (sf : List GoStr) :
    ∀ (parts : List GoStr) (p : VideoSpec),
      (parts.foldl (classifyToken sf) p).container = p.container := by
  intro parts
  induction parts with
  | nil => intro p; rfl
  | cons t rest ih =>
    intro p
    rw [List.foldl_cons, ih, classify_container]

/-- C9.  Container validation is the only error: `ParseFilename` returns
an error **iff** the request token carries a non-empty extension outside
the container whitelist; on every other input — the empty string, an
extension-free token, tokens made of unrecognized fields — it returns a
(possibly all-zero) specification, whose container field is set exactly
when a whitelisted extension is present. -/
theorem claim_C9_containerValidation (sf : List GoStr) (filename : GoStr) :
    ((∃ msg, ParseFilename sf filename = .error msg) ↔
      ((goToLower (goExt filename)).drop 1 ≠ [] ∧
        (goToLower (goExt filename)).drop 1 ∉ ValidContainers)) ∧
    (∀ spec, ParseFilename sf filename = .ok spec →
      spec.container = if (goToLower (goExt filename)).drop 1 ≠ [] ∧
          (goToLower (goExt filename)).drop 1 ∈ ValidContainers
        then (goToLower (goExt filename)).drop 1 else []) := by
  by_cases hc : (goToLower (goExt filename)).drop 1 ≠ [] ∧
      (goToLower (goExt filename)).drop 1 ∉ ValidContainers
  · constructor
    · rw [iff_true_intro hc, iff_true]
      refine ⟨txt "invalid container format: " ++
          (goToLower (goExt filename)).drop 1 ++
          txt " (valid formats: [mp4 webm])", ?_⟩
      simp only [ParseFilename, if_pos hc]
    · intro spec hspec
      simp only [ParseFilename, if_pos hc] at hspec
      cases hspec
  · constructor
    · simp only [iff_false_intro hc, iff_false, not_exists]
      intro msg hmsg
      simp only [ParseFilename, if_neg hc] at hmsg
      cases hmsg
    · intro spec hspec
      simp only [ParseFilename, if_neg hc, Except.ok.injEq] at hspec
      subst hspec
      rw [foldl_container]
      by_cases he : (goToLower (goExt filename)).drop 1 = []
      · rw [if_neg (show ¬(goToLower (goExt filename)).drop 1 ≠ [] from
            not_not_intro he),
          if_neg (show ¬((goToLower (goExt filename)).drop 1 ≠ [] ∧
            (goToLower (goExt filename)).drop 1 ∈ ValidContainers) from
            fun h => h.1 he)]
        rfl
      · have hvc : (goToLower (goExt filename)).drop 1 ∈ ValidContainers := by
          by_contra hnc
          exact hc ⟨he, hnc⟩
        rw [if_pos he, if_pos (show (goToLower (goExt filename)).drop 1 ≠ [] ∧
          (goToLower (goExt filename)).drop 1 ∈ ValidContainers from ⟨he, hvc⟩)]

/-- C9 witness: an `.avi` extension is rejected; the same fields with
`.mp4` parse with the container set. -/
theorem claim_C9_containerValidation_witness :
    (∃ msg, ParseFilename [] (txt "h264_1280x720.avi") = .error msg) ∧
    ∀ spec, ParseFilename [] (txt "h264_1280x720.mp4") = .ok spec →
      spec.container = txt "mp4" := by
  constructor
  · exact (claim_C9_containerValidation [] (txt "h264_1280x720.avi")).1.mpr
      (by decide)
  · intro spec hspec
    have h := (claim_C9_containerValidation [] (txt "h264_1280x720.mp4")).2
      spec hspec
    rw [h]
    decide

end LoremVideo
